import Mathlib

set_option maxHeartbeats 1000000

/- Shallow embedding of the vocabulary-learning engine of the Gerald Discord
bot, covering the stable variant (gerald_bot_stable.py) and the cloud variant
(gerald_cloud.py): tokenization, the vocabulary store, the learning loop, the
two constrained response generators, the response validator, and the
cooldown-gated message handlers. -/

namespace Gerald

/-- Python str.split with no arguments: split on whitespace runs, dropping
empty pieces. Works over the character list; acc holds the current token
reversed. -/
def splitWsCore : List Char → List Char → List String
  | [], acc => if acc.isEmpty then [] else [String.mk acc.reverse]
  | c :: cs, acc =>
    if c.isWhitespace then
      if acc.isEmpty then splitWsCore cs [] else String.mk acc.reverse :: splitWsCore cs []
    else splitWsCore cs (c :: acc)

/-- Tokens of a string, as Python str.split() produces them. -/
def splitWs (s : String) : List String := splitWsCore s.data []

/-- Python space-join of a word list. -/
def joinSpace : List String → String
  | [] => ""
  | [w] => w
  | w :: ws => w ++ " " ++ joinSpace ws

/-- The chained Python replace calls that delete the four punctuation
characters full stop, comma, exclamation mark and question mark. -/
def stripPunct (s : String) : String :=
  String.mk (s.data.filter fun c => !(c == '.' || c == ',' || c == '!' || c == '?'))

/-- ASCII lowering of one character, as Python str.lower acts on the ASCII
range (all inputs appearing in the claims are ASCII). -/
def charLower (c : Char) : Char :=
  if 65 ≤ c.toNat && c.toNat ≤ 90 then Char.ofNat (c.toNat + 32) else c

/-- Python str.lower. -/
def pyLower (s : String) : String := String.mk (s.data.map charLower)

/-- Python len on a string: the character count. -/
def strLen (s : String) : Nat := s.data.length

/-- Python str.strip with no arguments: drop leading and trailing
whitespace. -/
def pyStrip (s : String) : String :=
  String.mk ((((s.data.dropWhile Char.isWhitespace).reverse).dropWhile Char.isWhitespace).reverse)

/-- Python str.startswith. -/
def pyStartsWith (s pre : String) : Bool := pre.data.isPrefixOf s.data

/-- message_content.lower() followed by punctuation removal and split(),
shared by the learner and the validator in both variants. -/
def cleanTokens (s : String) : List String := splitWs (stripPunct (pyLower s))

/-- random.choice over a list, with the random draw supplied from outside as
a natural number index; total via modulo, empty string on an empty list. -/
def pick (l : List String) (i : Nat) : String := l.getD (i % l.length) ""

/-- random.sample(l, min 2 l.length), with the draws supplied as indices. -/
def sampleTwo (l : List String) (i j : Nat) : List String :=
  if 2 ≤ l.length then [pick l i, pick l j] else l

/-- Auxiliary substring test on character lists. -/
def subOf : List Char → List Char → Bool
  | pat, [] => pat.isEmpty
  | pat, c :: cs => pat.isPrefixOf (c :: cs) || subOf pat cs

/-- The Python substring membership test pat in s. -/
def strContains (s pat : String) : Bool := subOf pat.data s.data

/-- The vocabulary store: the learned_words set (kept as an insertion-ordered
duplicate-free list, so that list(learned_words) is directly available) and
the word_frequency dict (an insertion-ordered association list, as a Python
dict is). -/
structure VocabStore where
  words : List String
  frequency : List (String × Nat)

/-- set.add on the duplicate-free word list. -/
def addWord (w : String) (ws : List String) : List String :=
  if ws.contains w then ws else ws ++ [w]

/-- word_frequency.get(w, 0). -/
def lookupFreq : List (String × Nat) → String → Nat
  | [], _ => 0
  | (k, v) :: rest, w => if k = w then v else lookupFreq rest w

/-- The dict update word_frequency[w] = word_frequency.get(w, 0) + 1, keeping
insertion order. -/
def incrFreq : List (String × Nat) → String → List (String × Nat)
  | [], w => [(w, 1)]
  | (k, v) :: rest, w => if k = w then (k, v + 1) :: rest else (k, v) :: incrFreq rest w

/-- The key set of the frequency dict. -/
def freqKeys (f : List (String × Nat)) : List String := f.map Prod.fst

/-- The sum of all frequency counts. -/
def totalFreq (f : List (String × Nat)) : Nat := (f.map Prod.snd).sum

/-- Stop words of the stable variant learner. -/
def stopStable : List String := ["the", "and", "or", "but", "if", "then"]

/-- Stop words of the cloud variant learner. -/
def stopCloud : List String := ["the", "and", "or", "but", "if", "then", "is", "am", "are"]

/-- The learner filter: len(word) > 1 and word not in the stop list. -/
def qualifies (stop : List String) (w : String) : Bool := 1 < strLen w && !stop.contains w

/-- The loop body of learn_from_message: fold over the tokens, updating
words, frequency and the new_words_learned counter. -/
def learnTokens (stop : List String) : VocabStore → Nat → List String → VocabStore × Nat
  | st, n, [] => (st, n)
  | st, n, w :: rest =>
    if qualifies stop w then
      let n1 := if st.words.contains w then n else n + 1
      learnTokens stop ⟨addWord w st.words, incrFreq st.frequency w⟩ n1 rest
    else learnTokens stop st n rest

/-- Result of one learn_from_message call: the mutated store, the local
counter new_words_learned, whether save_learned_words was invoked (exactly
when the counter is positive), and the Python return value. The source
function has no return statement, so retVal is always none. -/
structure LearnOutcome where
  store : VocabStore
  newWordsLearned : Nat
  saved : Bool
  retVal : Option Nat

/-- learn_from_message, parametrized by the stop list; the stable and cloud
variants differ only in that list. -/
def learn_from_message (stop : List String) (st : VocabStore) (text : String) : LearnOutcome :=
  let p := learnTokens stop st 0 (cleanTokens text)
  ⟨p.1, p.2, decide (0 < p.2), none⟩

/-- The stable variant learner. -/
def learnS (st : VocabStore) (text : String) : LearnOutcome := learn_from_message stopStable st text

/-- The cloud variant learner. -/
def learnC (st : VocabStore) (text : String) : LearnOutcome := learn_from_message stopCloud st text

/-- The starter vocabulary seeded by the stable variant when no persisted
state exists; word_frequency starts empty. -/
def seedWordsStable : List String :=
  ["mate", "innit", "bloody", "hell", "proper", "mental", "rubbish",
   "cant", "be", "arsed", "whatever", "dont", "care", "you", "lot",
   "tyler", "massive", "heavy", "pounds", "weight", "fat"]

/-- The stable variant store right after seeding. -/
def seedStable : VocabStore := ⟨seedWordsStable.dedup, []⟩

/-- The starter vocabulary seeded by the cloud variant (the source set
literal repeats a few words; the set keeps one copy). -/
def seedWordsCloud : List String :=
  ["mate", "innit", "proper", "nice", "good", "cool", "yeah",
   "thanks", "cheers", "brilliant", "lovely", "sound", "right",
   "tyler", "jackson", "lads", "guys", "chat", "talking", "friends",
   "gaming", "games", "play", "playing", "fun", "epic", "awesome",
   "what", "how", "why", "when", "where", "good", "bad", "nice",
   "fps", "noob", "epic", "gg", "win", "victory", "skill", "pro",
   "hello", "hey", "sup", "wassup", "cool", "sweet", "nice"]

/-- The cloud variant store right after seeding. -/
def seedCloud : VocabStore := ⟨seedWordsCloud.dedup, []⟩

/-- The store produced by the clear_vocab command of the stable variant:
words reset to three basics, frequency cleared. -/
def clearedStore : VocabStore := ⟨["mate", "tyler", "massive"], []⟩

/-- Filter of a fixed candidate list down to the learned vocabulary, as in
the list comprehensions building each role pool. -/
def inWords (st : VocabStore) (l : List String) : List String :=
  l.filter fun w => st.words.contains w

/-- Stable insertion step for the descending-by-count sort. -/
def insertDesc (x : String × Nat) : List (String × Nat) → List (String × Nat)
  | [] => [x]
  | y :: ys => if x.2 < y.2 then y :: insertDesc x ys else x :: y :: ys

/-- sorted(word_frequency.items(), key by count, reverse=True): a stable
descending sort of the frequency items. -/
def sortFreqDesc : List (String × Nat) → List (String × Nat)
  | [] => []
  | x :: xs => insertDesc x (sortFreqDesc xs)

/-- Candidate connector words of the stable generator. -/
def connectorCandidatesS : List String := ["mate", "innit", "bloody", "proper", "hell"]

/-- Candidate Tyler words, shared verbatim by both generators. -/
def tylerCandidates : List String :=
  ["tyler", "massive", "heavy", "pounds", "weight", "fat", "huge", "big"]

/-- Candidate reaction words of the stable generator. -/
def reactionCandidatesS : List String :=
  ["whatever", "mental", "rubbish", "cant", "arsed", "care", "dont"]

/-- The random draws consumed by one call of the stable generator, supplied
from outside so that theorems quantify over every sampling outcome. -/
structure RngS where
  cIdx : Nat
  tGate : Bool
  tIdx : Nat
  t2Gate : Bool
  t2Idx : Nat
  rIdx : Nat
  fI : Nat
  fJ : Nat
  lIdx : Nat

/-- Stable generator, connector step: always start with a connector when one
is available. -/
def stageConnectorS (st : VocabStore) (rng : RngS) : List String :=
  let connectors := inWords st connectorCandidatesS
  if connectors.isEmpty then [] else [pick connectors rng.cIdx]

/-- Stable generator, Tyler step: an 80 percent gate appends one Tyler word,
then a further 50 percent gate appends a second, different Tyler word. -/
def stageTylerS (st : VocabStore) (rng : RngS) (rw : List String) : List String :=
  let tw := inWords st tylerCandidates
  if !tw.isEmpty && rng.tGate then
    let w1 := pick tw rng.tIdx
    if 1 < tw.length && rng.t2Gate then
      rw ++ [w1] ++ [pick (tw.filter fun w => w ≠ w1) rng.t2Idx]
    else rw ++ [w1]
  else rw

/-- Stable generator, reaction step. -/
def stageReactionS (st : VocabStore) (rng : RngS) (rw : List String) : List String :=
  let reactions := inWords st reactionCandidatesS
  if !reactions.isEmpty && rw.length < 5 then rw ++ [pick reactions rng.rIdx] else rw

/-- The available_words list of the stable generator fill step: the thirty
most frequent words, kept when learned and not already chosen. -/
def fillPoolS (st : VocabStore) (rw : List String) : List String :=
  (((sortFreqDesc st.frequency).take 30).map Prod.fst).filter fun w =>
    st.words.contains w && !rw.contains w

/-- Stable generator, fill step: pad short responses with a sample of the
most common words. -/
def stageFillS (st : VocabStore) (rng : RngS) (rw : List String) : List String :=
  if rw.length < 3 then rw ++ sampleTwo (fillPoolS st rw) rng.fI rng.fJ else rw

/-- Stable generator, last-resort step: mate if known, else one random
learned word, else nothing. -/
def stageEnsureS (st : VocabStore) (rng : RngS) (rw : List String) : List String :=
  if rw.isEmpty && st.words.contains "mate" then ["mate"]
  else if rw.isEmpty then
    if st.words.isEmpty then [] else [pick st.words rng.lIdx]
  else rw

/-- The response_words list assembled by the stable generator, truncated to
six words. -/
def genWordsS (st : VocabStore) (rng : RngS) : List String :=
  (stageEnsureS st rng (stageFillS st rng (stageReactionS st rng
    (stageTylerS st rng (stageConnectorS st rng))))).take 6

/-- generate_response_from_learned_words of the stable variant (its context
parameter is unused in the source body and omitted here). -/
def generate_response_from_learned_words (st : VocabStore) (rng : RngS) : String :=
  let rw := genWordsS st rng
  if rw.isEmpty then "..." else joinSpace rw

/-- Candidate connector words of the cloud generator. -/
def connectorCandidatesC : List String := ["mate", "innit", "yeah", "oh", "hey", "nice", "good"]

/-- Candidate positive reaction words of the cloud generator. -/
def positiveCandidates : List String := ["cool", "nice", "good", "yeah", "proper", "epic"]

/-- Candidate neutral reaction words of the cloud generator. -/
def neutralCandidates : List String := ["whatever", "mental", "cant", "care", "dont", "thanks"]

/-- Candidate gaming words of the cloud generator. -/
def gamingCandidates : List String := ["gaming", "games", "play", "fps", "gg", "epic"]

/-- Candidate descriptor words of the cloud generator. -/
def descriptorCandidates : List String := ["real", "proper", "mental", "good", "bad", "nice", "cool"]

/-- Words excluded from the cloud fill step. -/
def tylerAvoid : List String := ["fat", "massive", "heavy", "pounds", "weight"]

/-- Words excluded from the cloud safe last resort. -/
def safeAvoid : List String := ["fat", "massive", "heavy", "pounds", "weight", "tyler"]

/-- The random draws consumed by one call of the cloud generator. -/
structure RngC where
  posIdx : Nat
  gameIdx : Nat
  descIdx : Nat
  connIdx : Nat
  tGate : Bool
  tIdx : Nat
  reactIdx : Nat
  fI : Nat
  fJ : Nat
  safeIdx : Nat
  lastIdx : Nat

/-- Cloud generator, thanks branch of the context chain. -/
def ctxThanksC (st : VocabStore) : List String :=
  if st.words.contains "yeah" then
    if st.words.contains "mate" then ["yeah", "mate"] else ["yeah"]
  else []

/-- Cloud generator, cool-or-nice branch of the context chain. -/
def ctxCoolC (st : VocabStore) (rng : RngC) : List String :=
  if (inWords st positiveCandidates).isEmpty then []
  else
    let rw := [pick (inWords st positiveCandidates) rng.posIdx]
    if rw.length < 2 && st.words.contains "mate" then rw ++ ["mate"] else rw

/-- Cloud generator, gaming branch of the context chain (only entered when
the gaming pool is non-empty). -/
def ctxGamingC (st : VocabStore) (rng : RngC) : List String :=
  let rw := [pick (inWords st gamingCandidates) rng.gameIdx]
  if !(inWords st descriptorCandidates).isEmpty && rw.length < 2 then
    rw ++ [pick (inWords st descriptorCandidates) rng.descIdx]
  else rw

/-- Cloud generator, question branch of the context chain. -/
def ctxQuestionC (st : VocabStore) (rng : RngC) : List String :=
  let rw := if (inWords st connectorCandidatesC).isEmpty then []
    else [pick (inWords st connectorCandidatesC) rng.connIdx]
  if rw.length < 2 && !(inWords st descriptorCandidates).isEmpty then
    rw ++ [pick (inWords st descriptorCandidates) rng.descIdx]
  else rw

/-- Cloud generator, default branch: friendly connector start. -/
def ctxDefaultConnC (st : VocabStore) (rng : RngC) : List String :=
  if (inWords st connectorCandidatesC).isEmpty then []
  else [pick (inWords st connectorCandidatesC) rng.connIdx]

/-- Cloud generator, default branch: the five percent Tyler mention. -/
def ctxDefaultTylerC (st : VocabStore) (rng : RngC) (rw : List String) : List String :=
  if !(inWords st tylerCandidates).isEmpty && rng.tGate then
    rw ++ [pick (inWords st tylerCandidates) rng.tIdx]
  else rw

/-- Cloud generator, default branch: positive or neutral reaction. -/
def ctxDefaultReactC (st : VocabStore) (rng : RngC) (rw : List String) : List String :=
  let all_reactions := inWords st positiveCandidates ++ inWords st neutralCandidates
  if !all_reactions.isEmpty && rw.length < 3 then rw ++ [pick all_reactions rng.reactIdx] else rw

/-- Cloud generator, default branch of the context chain. -/
def ctxDefaultC (st : VocabStore) (rng : RngC) : List String :=
  ctxDefaultReactC st rng (ctxDefaultTylerC st rng (ctxDefaultConnC st rng))

/-- Cloud generator, context-aware step: the if/elif chain over the
lowercased context, building the initial response_words. -/
def stageContextC (st : VocabStore) (ctx : String) (rng : RngC) : List String :=
  if strContains ctx "thanks" then ctxThanksC st
  else if strContains ctx "cool" || strContains ctx "nice" then ctxCoolC st rng
  else if (strContains ctx "game" || strContains ctx "gaming" || strContains ctx "play")
      && !(inWords st gamingCandidates).isEmpty then ctxGamingC st rng
  else if strContains ctx "?" then ctxQuestionC st rng
  else ctxDefaultC st rng

/-- The preferred_words list of the cloud fill step. -/
def fillPoolC (st : VocabStore) (rw : List String) : List String :=
  (((sortFreqDesc st.frequency).take 30).map Prod.fst).filter fun w =>
    st.words.contains w && !rw.contains w && 2 < w.length && !tylerAvoid.contains w

/-- Cloud generator, fill step. -/
def stageFillC (st : VocabStore) (rng : RngC) (rw : List String) : List String :=
  if rw.length < 2 then rw ++ sampleTwo (fillPoolC st rw) rng.fI rng.fJ else rw

/-- Cloud generator, last-resort step: yeah, mate, a safe learned word, or
any learned word. -/
def stageEnsureC (st : VocabStore) (rng : RngC) (rw : List String) : List String :=
  if rw.isEmpty then
    if st.words.contains "yeah" then ["yeah"]
    else if st.words.contains "mate" then ["mate"]
    else if st.words.isEmpty then []
    else
      let safe_words := st.words.filter fun w => !safeAvoid.contains w
      if safe_words.isEmpty then [pick st.words rng.lastIdx]
      else [pick safe_words rng.safeIdx]
  else rw

/-- The response_words list assembled by the cloud generator, truncated to
three words. -/
def genWordsC (st : VocabStore) (ctx : String) (rng : RngC) : List String :=
  (stageEnsureC st rng (stageFillC st rng (stageContextC st (pyLower ctx) rng))).take 3

/-- generate_response of the cloud variant. -/
def generate_response (st : VocabStore) (ctx : String) (rng : RngC) : String :=
  let rw := genWordsC st ctx rng
  if rw.isEmpty then "yeah mate" else joinSpace rw

/-- The deny-list of the stable validator. -/
def badResponses : List String :=
  ["bruh how", "bruh, how", "probably", "idk", "yuh", "nah",
   "ohhhh", "maybe", "but why would you", "what even"]

/-- is_good_response of the stable variant (its original_message parameter is
unused in the source body and omitted here). -/
def is_good_response (st : VocabStore) (response : String) : Bool :=
  if response == "" || strLen response < 3 then false
  else
    let response_words := cleanTokens response
    if response_words.any fun w => !st.words.contains w then false
    else
      let rl := pyStrip (pyLower response)
      if badResponses.any fun b => rl == pyLower b || pyStartsWith rl (pyLower b) then false
      else if 8 < response_words.length then false
      else if response_words.length < 2 then false
      else true

/-- Per-channel cooldown timestamps: the last_response_time dict. -/
def lookupTime : List (Nat × ℤ) → Nat → Option ℤ
  | [], _ => none
  | (c, t) :: rest, ch => if c = ch then some t else lookupTime rest ch

/-- Update of the last_response_time dict for a channel. -/
def setTime : List (Nat × ℤ) → Nat → ℤ → List (Nat × ℤ)
  | [], ch, t => [(ch, t)]
  | (c, t0) :: rest, ch, t => if c = ch then (c, t) :: rest else (c, t0) :: setTime rest ch t

/-- cooldown_seconds of the stable variant. -/
def cooldownSecondsS : ℤ := 2

/-- cooldown_seconds of the cloud variant. -/
def cooldownSecondsC : ℤ := 3

/-- rant_cooldown of the cloud variant. -/
def rantCooldown : ℤ := 300

/-- Default trigger_words of the stable variant configuration. -/
def triggerWordsS : List String := ["hey", "hello", "gerald", "what do you think"]

/-- trigger_words of the cloud variant configuration. -/
def triggerWordsC : List String :=
  ["hey", "hello", "gerald", "what do you think", "games", "gaming", "play"]

/-- friend_names of the cloud variant configuration. -/
def friendNames : List String := ["tyler", "jackson", "mate", "guys", "lads"]

/-- The gaming word list tested inside should_respond of the cloud variant. -/
def gamingCheckWords : List String := ["game", "gaming", "play", "fps", "lag", "gg"]

/-- Default allowed_channels of the stable variant configuration: the empty
list, meaning every channel. -/
def allowedChannels : List Nat := []

/-- The probability-gate draws consumed by should_respond of the stable
variant, supplied from outside. -/
structure RngGateS where
  questionGate : Bool
  chanceGate : Bool

/-- should_respond of the stable variant, for an inbound message in the
given channel at the given time. The real time of each event is passed in
for datetime.now().timestamp(). -/
def should_respond_stable (lastResp : List (Nat × ℤ)) (channelId : Nat) (now : ℤ)
    (content : String) (mentionsBot : Bool) (authorIsBot : Bool) (g : RngGateS) : Bool :=
  if authorIsBot then false
  else
    let cooled :=
      match lookupTime lastResp channelId with
      | some t => decide (cooldownSecondsS ≤ now - t)
      | none => true
    if !cooled then false
    else if !allowedChannels.isEmpty && !allowedChannels.contains channelId then false
    else if mentionsBot then true
    else
      let cl := pyLower content
      if triggerWordsS.any fun tr => strContains cl (pyLower tr) then true
      else if strContains content "?" && 10 < strLen content then g.questionGate
      else g.chanceGate

/-- Mutable handler state of the stable variant relevant to the cooldown
claim: the vocabulary store and the per-channel cooldown timestamps. -/
structure BotStateS where
  store : VocabStore
  lastResponseTime : List (Nat × ℤ)

/-- on_message of the stable variant for a plain non-command message,
assuming the outbound send succeeds. The source learns from the message and
sends only inside the should_respond branch; the timestamp recorded after
sending is modelled as the arrival time. -/
def on_message_stable (s : BotStateS) (channelId : Nat) (now : ℤ) (content : String)
    (mentionsBot authorIsBot : Bool) (g : RngGateS) : BotStateS × Bool :=
  if authorIsBot then (s, false)
  else if should_respond_stable s.lastResponseTime channelId now content mentionsBot authorIsBot g then
    (⟨(learnS s.store content).store, setTime s.lastResponseTime channelId now⟩, true)
  else (s, false)

/-- Mutable handler state of the cloud variant relevant to the cooldown
claim (the conversation-memory bookkeeping of remember_message does not
interact with responding or learning and is omitted). -/
structure BotStateC where
  store : VocabStore
  lastResponseTime : List (Nat × ℤ)
  lastRantTime : ℤ

/-- The probability-gate draws consumed by should_respond of the cloud
variant. -/
structure RngGateC where
  friendGate : Bool
  rantGate : Bool
  questionGate : Bool
  gamingGate : Bool
  chanceGate : Bool

/-- should_respond of the cloud variant: returns the decision and the
possibly updated last_rant_time. -/
def should_respond_cloud (lastResp : List (Nat × ℤ)) (lastRant : ℤ) (channelId : Nat)
    (now : ℤ) (content : String) (mentionsBot : Bool) (g : RngGateC) : Bool × ℤ :=
  let cooled :=
    match lookupTime lastResp channelId with
    | some t => decide (cooldownSecondsC ≤ now - t)
    | none => true
  if !cooled then (false, lastRant)
  else if mentionsBot then (true, lastRant)
  else
    let cl := pyLower content
    if triggerWordsC.any fun tr => strContains cl (pyLower tr) then (true, lastRant)
    else if friendNames.any fun f => strContains cl f then (g.friendGate, lastRant)
    else if rantCooldown < now - lastRant && g.rantGate then (true, now)
    else if strContains content "?" && 5 < strLen content then (g.questionGate, lastRant)
    else if gamingCheckWords.any fun w => strContains cl w then (g.gamingGate, lastRant)
    else (g.chanceGate, lastRant)

/-- on_message of the cloud variant for a plain non-command message: the
message is always remembered and learned from, then should_respond gates the
send. The send is assumed to succeed and its timestamp is modelled as the
arrival time. -/
def on_message_cloud (s : BotStateC) (channelId : Nat) (now : ℤ) (content : String)
    (mentionsBot authorIsBot : Bool) (g : RngGateC) : BotStateC × Bool :=
  if authorIsBot then (s, false)
  else
    let st1 := (learnC s.store content).store
    let p := should_respond_cloud s.lastResponseTime s.lastRantTime channelId now content mentionsBot g
    if p.1 then (⟨st1, setTime s.lastResponseTime channelId now, p.2⟩, true)
    else (⟨st1, s.lastResponseTime, p.2⟩, false)

/-- Stores of the stable variant reachable from the built-in starter seed by
learn calls alone. -/
inductive ReachS : VocabStore → Prop
  | seed : ReachS seedStable
  | learn (st : VocabStore) (text : String) : ReachS st → ReachS (learnS st text).store

/-- Stores of the cloud variant reachable from the built-in starter seed by
learn calls alone. -/
inductive ReachC : VocabStore → Prop
  | seed : ReachC seedCloud
  | learn (st : VocabStore) (text : String) : ReachC st → ReachC (learnC st text).store

/-- Stores of the stable variant reachable across the whole lifecycle:
seeding, learn calls, and the explicit clear_vocab reset. -/
inductive LifecycleS : VocabStore → Prop
  | seed : LifecycleS seedStable
  | learn (st : VocabStore) (text : String) : LifecycleS st → LifecycleS (learnS st text).store
  | reset (st : VocabStore) : LifecycleS st → LifecycleS clearedStore

/-- n-fold repetition of learn_from_message on the same text. -/
def iterLearn (stop : List String) (st : VocabStore) (text : String) : Nat → VocabStore
  | 0 => st
  | n + 1 => (learn_from_message stop (iterLearn stop st text n) text).store

/-- The specification-side set of distinct qualifying tokens of a token list
that are not in the given word list. -/
def newTokenSet (stop : List String) (S : List String) (ts : List String) : Finset String :=
  ((ts.filter (qualifies stop)).filter fun w => !S.contains w).toFinset

/-- The specification-side count of distinct qualifying tokens of a text not
previously in the store. -/
def newDistinct (stop : List String) (st : VocabStore) (text : String) : Nat :=
  (newTokenSet stop st.words (cleanTokens text)).card

/-- The frequency keys of a store all name learned words. -/
def KeysSub (st : VocabStore) : Prop := ∀ p ∈ st.frequency, p.1 ∈ st.words

/-- A token is usable in generated output: non-empty and free of whitespace
characters, so that space-joining and re-splitting recover it. -/
def goodToken (w : String) : Prop :=
  w ≠ "" ∧ ∀ c ∈ w.data, c.isWhitespace = false

/-- Invariant of stable-variant stores: every learned word is whitespace-free,
at least two characters long and not a stop word. -/
def InvS (st : VocabStore) : Prop :=
  ∀ w ∈ st.words, (∀ c ∈ w.data, c.isWhitespace = false) ∧ 1 < strLen w ∧
    stopStable.contains w = false

/-- Invariant of cloud-variant stores: every learned word is whitespace-free
and at least two characters long. -/
def InvC (st : VocabStore) : Prop :=
  ∀ w ∈ st.words, (∀ c ∈ w.data, c.isWhitespace = false) ∧ 1 < strLen w

/-- A fixed stable-generator draw used for witnesses. -/
def rngS0 : RngS := ⟨0, false, 0, false, 0, 0, 0, 1, 0⟩

/-- A fixed cloud-generator draw used for witnesses. -/
def rngC0 : RngC := ⟨0, 0, 0, 0, false, 0, 0, 0, 1, 0, 0⟩

/-- A fixed stable-gate draw used for witnesses. -/
def gateS0 : RngGateS := ⟨false, false⟩

/-- A fixed cloud-gate draw used for witnesses. -/
def gateC0 : RngGateC := ⟨false, false, false, false, false⟩

/-- The scenario store of the learning claim: starter vocabulary mate, tyler,
massive, yeah, each with one observation. -/
def scenarioStore : VocabStore :=
  ⟨["mate", "tyler", "massive", "yeah"], [("mate", 1), ("tyler", 1), ("massive", 1), ("yeah", 1)]⟩

/-- A one-word store whose word intersects no generator role pool. -/
def zebraStore : VocabStore := ⟨["zebra"], []⟩

/-- Boolean list containment agrees with membership. -/
theorem contains_iff (l : List String) (w : String) : l.contains w = true ↔ w ∈ l :=
  List.elem_iff

/-- Rebuilding a string from its character list is the identity. -/
theorem mk_data (w : String) : String.mk w.data = w := rfl

/-- A string is empty exactly when its character list is. -/
theorem data_eq_nil_iff (w : String) : w.data = [] ↔ w = "" := by
  constructor
  · intro h
    cases w with
    | mk d => cases h; rfl
  · intro h
    subst h
    rfl

/-- pick always returns a member of a non-empty list. -/
theorem pick_mem {l : List String} (h : l ≠ []) (i : Nat) : pick l i ∈ l := by
  have hlen : i % l.length < l.length := Nat.mod_lt _ (List.length_pos.mpr h)
  rw [pick, List.getD_eq_getElem l _ hlen]
  exact List.getElem_mem hlen

/-- sampleTwo only returns members of its pool. -/
theorem sampleTwo_subset {l : List String} (i j : Nat) : ∀ w ∈ sampleTwo l i j, w ∈ l := by
  intro w h
  unfold sampleTwo at h
  split at h
  · rename_i hlen
    have hne : l ≠ [] := by
      intro e
      subst e
      simp at hlen
    rcases List.mem_cons.mp h with rfl | h2
    · exact pick_mem hne i
    · rcases List.mem_cons.mp h2 with rfl | h3
      · exact pick_mem hne j
      · cases h3
  · exact h

/-- Building a token from non-whitespace characters yields a good token. -/
theorem goodToken_mk {l : List Char} (hne : l ≠ [])
    (hws : ∀ c ∈ l, c.isWhitespace = false) : goodToken (String.mk l) := by
  refine ⟨fun h => hne ?_, hws⟩
  simpa using congrArg String.data h

/-- Every token produced by the splitter is non-empty and whitespace-free. -/
theorem splitWsCore_good : ∀ (cs acc : List Char), (∀ c ∈ acc, c.isWhitespace = false) →
    ∀ t ∈ splitWsCore cs acc, goodToken t := by
  intro cs
  induction cs with
  | nil =>
    intro acc hacc t ht
    simp only [splitWsCore] at ht
    split at ht
    · cases ht
    · rename_i hne
      rcases List.mem_singleton.mp ht with rfl
      refine goodToken_mk ?_ ?_
      · intro e
        rw [List.reverse_eq_nil_iff] at e
        subst e
        simp at hne
      · intro c hc
        exact hacc c (List.mem_reverse.mp hc)
  | cons c cs ih =>
    intro acc hacc t ht
    simp only [splitWsCore] at ht
    split at ht
    · split at ht
      · exact ih [] (by simp) t ht
      · rename_i hne
        rcases List.mem_cons.mp ht with rfl | h2
        · refine goodToken_mk ?_ ?_
          · intro e
            rw [List.reverse_eq_nil_iff] at e
            subst e
            simp at hne
          · intro x hx
            exact hacc x (List.mem_reverse.mp hx)
        · exact ih [] (by simp) t h2
    · rename_i hcw
      refine ih (c :: acc) ?_ t ht
      intro x hx
      rcases List.mem_cons.mp hx with rfl | h2
      · simpa using hcw
      · exact hacc x h2

/-- Every token of splitWs is good. -/
theorem splitWs_good (s : String) : ∀ t ∈ splitWs s, goodToken t :=
  splitWsCore_good s.data [] (by simp)

/-- Every token of cleanTokens is good. -/
theorem cleanTokens_good (s : String) : ∀ t ∈ cleanTokens s, goodToken t :=
  splitWs_good _

/-- The splitter walks over a whitespace-free prefix, accumulating it. -/
theorem splitWsCore_append_noWs : ∀ (cs ds acc : List Char),
    (∀ c ∈ cs, c.isWhitespace = false) →
    splitWsCore (cs ++ ds) acc = splitWsCore ds (cs.reverse ++ acc) := by
  intro cs
  induction cs with
  | nil =>
    intro ds acc _
    simp
  | cons c cs ih =>
    intro ds acc h
    have hc : c.isWhitespace = false := h c (by simp)
    simp only [List.cons_append, splitWsCore, hc]
    rw [if_neg (by simp)]
    show splitWsCore (cs ++ ds) (c :: acc) = _
    rw [ih ds (c :: acc) (fun x hx => h x (by simp [hx]))]
    simp

/-- Splitting a space-join of good tokens recovers exactly those tokens. -/
theorem splitWs_joinSpace : ∀ (ws : List String), (∀ w ∈ ws, goodToken w) →
    splitWs (joinSpace ws) = ws := by
  intro ws
  induction ws with
  | nil =>
    intro _
    rfl
  | cons w vs ih =>
    intro h
    have hw : goodToken w := h w (by simp)
    have hwdata : w.data ≠ [] := fun e => hw.1 ((data_eq_nil_iff w).mp e)
    cases vs with
    | nil =>
      show splitWsCore (joinSpace [w]).data [] = [w]
      have h2 := splitWsCore_append_noWs w.data [] [] hw.2
      simp only [List.append_nil] at h2
      show splitWsCore w.data [] = [w]
      rw [h2]
      simp only [splitWsCore]
      rw [if_neg]
      · simp [mk_data]
      · simp [hwdata]
    | cons v vs =>
      have hdata : (joinSpace (w :: v :: vs)).data
          = w.data ++ (' ' :: (joinSpace (v :: vs)).data) := by
        show (w ++ " " ++ joinSpace (v :: vs)).data = _
        rw [String.data_append, String.data_append]
        simp
      show splitWsCore (joinSpace (w :: v :: vs)).data [] = w :: v :: vs
      rw [hdata, splitWsCore_append_noWs w.data _ [] hw.2, List.append_nil]
      simp only [splitWsCore]
      rw [if_pos (by simp), if_neg (by simp [hwdata])]
      rw [List.reverse_reverse, mk_data]
      have h3 := ih (fun x hx => h x (List.mem_cons_of_mem _ hx))
      exact congrArg (fun l => w :: l) h3

/-- A space-join of at least one good token is a non-empty string. -/
theorem joinSpace_ne_empty {ws : List String} (h : ws ≠ [])
    (hg : ∀ w ∈ ws, goodToken w) : joinSpace ws ≠ "" := by
  intro e
  have h2 := splitWs_joinSpace ws hg
  rw [e] at h2
  exact h h2.symm

/-- Negated boolean containment agrees with non-membership. -/
theorem bnot_contains_iff (l : List String) (w : String) :
    ((!l.contains w) = true) ↔ w ∉ l := by
  cases hc : l.contains w
  · simp only [hc, Bool.not_false]
    constructor
    · intro _ hm
      rw [← contains_iff l w, hc] at hm
      cases hm
    · intro _
      trivial
  · simp only [hc, Bool.not_true]
    constructor
    · intro h
      cases h
    · intro h
      exact absurd ((contains_iff l w).mp hc) h

/-- Membership after a set.add step. -/
theorem mem_addWord {w v : String} {ws : List String} :
    w ∈ addWord v ws ↔ w ∈ ws ∨ w = v := by
  unfold addWord
  split
  · rename_i h
    constructor
    · exact Or.inl
    · rintro (h2 | rfl)
      · exact h2
      · exact (contains_iff ws w).mp h
  · simp [List.mem_append]

/-- Words present after the learning loop: the old words together with the
qualifying tokens of the message. -/
theorem mem_learnTokens_words (stop : List String) :
    ∀ (ts : List String) (st : VocabStore) (n : Nat) (w : String),
      w ∈ (learnTokens stop st n ts).1.words ↔
        w ∈ st.words ∨ (w ∈ ts ∧ qualifies stop w = true) := by
  intro ts
  induction ts with
  | nil =>
    intro st n w
    simp [learnTokens]
  | cons v rest ih =>
    intro st n w
    by_cases hq : qualifies stop v = true
    · have hst : learnTokens stop st n (v :: rest)
          = learnTokens stop ⟨addWord v st.words, incrFreq st.frequency v⟩
              (if st.words.contains v then n else n + 1) rest := by
        simp [learnTokens, hq]
      rw [hst, ih]
      constructor
      · rintro (h | h)
        · rcases mem_addWord.mp h with h2 | rfl
          · exact Or.inl h2
          · exact Or.inr ⟨by simp, hq⟩
        · exact Or.inr ⟨List.mem_cons_of_mem _ h.1, h.2⟩
      · rintro (h | ⟨hm, hq2⟩)
        · exact Or.inl (mem_addWord.mpr (Or.inl h))
        · rcases List.mem_cons.mp hm with rfl | h3
          · exact Or.inl (mem_addWord.mpr (Or.inr rfl))
          · exact Or.inr ⟨h3, hq2⟩
    · have hst : learnTokens stop st n (v :: rest) = learnTokens stop st n rest := by
        simp [learnTokens, hq]
      rw [hst, ih]
      constructor
      · rintro (h | h)
        · exact Or.inl h
        · exact Or.inr ⟨List.mem_cons_of_mem _ h.1, h.2⟩
      · rintro (h | ⟨hm, hq2⟩)
        · exact Or.inl h
        · rcases List.mem_cons.mp hm with rfl | h3
          · exact absurd hq2 (by simpa using hq)
          · exact Or.inr ⟨h3, hq2⟩

/-- learn never removes a word. -/
theorem learn_words_mono (stop : List String) (st : VocabStore) (text : String) :
    ∀ w ∈ st.words, w ∈ (learn_from_message stop st text).store.words := by
  intro w hw
  exact (mem_learnTokens_words stop (cleanTokens text) st 0 w).mpr (Or.inl hw)

/-- Every qualifying token of the message is known after the learn call. -/
theorem learn_adds_qualifying (stop : List String) (st : VocabStore) (text : String) :
    ∀ t ∈ cleanTokens text, qualifies stop t = true →
      t ∈ (learn_from_message stop st text).store.words := by
  intro t ht hq
  exact (mem_learnTokens_words stop (cleanTokens text) st 0 t).mpr (Or.inr ⟨ht, hq⟩)

/-- The qualifying filter forces length above one and absence from the stop
list. -/
theorem qualifies_spec {stop : List String} {w : String} (h : qualifies stop w = true) :
    1 < strLen w ∧ stop.contains w = false := by
  unfold qualifies at h
  rcases Bool.and_eq_true_iff.mp h with ⟨h1, h2⟩
  exact ⟨by simpa using h1, by simpa using h2⟩

/-- The stable-store invariant survives a learn call. -/
theorem InvS_learn {st : VocabStore} (h : InvS st) (text : String) :
    InvS (learnS st text).store := by
  intro w hw
  rcases (mem_learnTokens_words stopStable (cleanTokens text) st 0 w).mp hw with h2 | ⟨hm, hq⟩
  · exact h w h2
  · have hg := cleanTokens_good text w hm
    have hs := qualifies_spec hq
    exact ⟨hg.2, hs.1, hs.2⟩

/-- The cloud-store invariant survives a learn call. -/
theorem InvC_learn {st : VocabStore} (h : InvC st) (text : String) :
    InvC (learnC st text).store := by
  intro w hw
  rcases (mem_learnTokens_words stopCloud (cleanTokens text) st 0 w).mp hw with h2 | ⟨hm, hq⟩
  · exact h w h2
  · have hg := cleanTokens_good text w hm
    have hs := qualifies_spec hq
    exact ⟨hg.2, hs.1⟩

/-- The seed store of the stable variant satisfies the invariant. -/
theorem InvS_seed : InvS seedStable := by
  unfold InvS seedStable seedWordsStable strLen stopStable
  decide

/-- The cleared store satisfies the stable invariant. -/
theorem InvS_cleared : InvS clearedStore := by
  unfold InvS clearedStore strLen stopStable
  decide

/-- The seed store of the cloud variant satisfies the invariant. -/
theorem InvC_seed : InvC seedCloud := by
  unfold InvC seedCloud seedWordsCloud strLen
  decide

/-- Every reachable stable store satisfies the invariant. -/
theorem reachS_inv : ∀ st, ReachS st → InvS st := by
  intro st h
  induction h with
  | seed => exact InvS_seed
  | learn st text _ ih => exact InvS_learn ih text

/-- Every reachable cloud store satisfies the invariant. -/
theorem reachC_inv : ∀ st, ReachC st → InvC st := by
  intro st h
  induction h with
  | seed => exact InvC_seed
  | learn st text _ ih => exact InvC_learn ih text

/-- Reachable stable stores have a non-empty vocabulary. -/
theorem reachS_ne_nil : ∀ st, ReachS st → st.words ≠ [] := by
  intro st h
  induction h with
  | seed => decide
  | learn st text _ ih =>
    cases hst : st.words with
    | nil => exact absurd hst ih
    | cons a t =>
      have ha : a ∈ st.words := by
        rw [hst]
        simp
      have h2 := learn_words_mono stopStable st text a ha
      intro e
      have h3 : a ∈ ([] : List String) := by
        rw [← e]
        exact h2
      cases h3

/-- Reachable cloud stores have a non-empty vocabulary. -/
theorem reachC_ne_nil : ∀ st, ReachC st → st.words ≠ [] := by
  intro st h
  induction h with
  | seed => decide
  | learn st text _ ih =>
    cases hst : st.words with
    | nil => exact absurd hst ih
    | cons a t =>
      have ha : a ∈ st.words := by
        rw [hst]
        simp
      have h2 := learn_words_mono stopCloud st text a ha
      intro e
      have h3 : a ∈ ([] : List String) := by
        rw [← e]
        exact h2
      cases h3

/-- Inserting an element costs one more than the erased remainder. -/
theorem card_insert_eq_one_add_card_erase (X : Finset String) (v : String) :
    (insert v X).card = 1 + (X.erase v).card := by
  by_cases h : v ∈ X
  · rw [Finset.insert_eq_self.mpr h]
    have := Finset.card_erase_add_one h
    omega
  · rw [Finset.card_insert_of_not_mem h, Finset.erase_eq_of_not_mem h]
    omega

/-- The new_words_learned counter and the word-set growth of the learning
loop, both measured by the set of distinct new qualifying tokens. -/
theorem learnTokens_count (stop : List String) :
    ∀ (ts : List String) (st : VocabStore) (n : Nat),
      (learnTokens stop st n ts).2 = n + (newTokenSet stop st.words ts).card ∧
      (learnTokens stop st n ts).1.words.length
        = st.words.length + (newTokenSet stop st.words ts).card := by
  intro ts
  induction ts with
  | nil =>
    intro st n
    simp [learnTokens, newTokenSet]
  | cons v rest ih =>
    intro st n
    by_cases hq : qualifies stop v = true
    · have hst : learnTokens stop st n (v :: rest)
          = learnTokens stop ⟨addWord v st.words, incrFreq st.frequency v⟩
              (if st.words.contains v then n else n + 1) rest := by
        simp [learnTokens, hq]
      by_cases hc : st.words.contains v = true
      · have hm : v ∈ st.words := (contains_iff _ _).mp hc
        have hset : newTokenSet stop st.words (v :: rest) = newTokenSet stop st.words rest := by
          unfold newTokenSet
          rw [List.filter_cons, if_pos hq, List.filter_cons, if_neg (by rw [hc]; simp)]
        have haw : addWord v st.words = st.words := by
          unfold addWord
          rw [if_pos hc]
        rw [hst, if_pos hc, hset, haw]
        exact ih ⟨st.words, incrFreq st.frequency v⟩ n
      · have hcf : st.words.contains v = false := Bool.eq_false_iff.mpr hc
        have hset : newTokenSet stop st.words (v :: rest)
            = insert v (newTokenSet stop st.words rest) := by
          unfold newTokenSet
          rw [List.filter_cons, if_pos hq, List.filter_cons, if_pos (by rw [hcf]; rfl)]
          simp
        have herase : newTokenSet stop (st.words ++ [v]) rest
            = (newTokenSet stop st.words rest).erase v := by
          unfold newTokenSet
          ext w
          simp only [List.mem_toFinset, List.mem_filter, Finset.mem_erase, bnot_contains_iff,
            List.mem_append, List.mem_singleton]
          tauto
        have haw : addWord v st.words = st.words ++ [v] := by
          unfold addWord
          rw [hcf]
          rfl
        rw [hst, if_neg hc, hset, haw]
        have hih := ih ⟨st.words ++ [v], incrFreq st.frequency v⟩ (n + 1)
        have hwp : (VocabStore.mk (st.words ++ [v]) (incrFreq st.frequency v)).words
            = st.words ++ [v] := rfl
        rw [hwp, herase] at hih
        rw [card_insert_eq_one_add_card_erase]
        constructor
        · rw [hih.1]
          omega
        · rw [hih.2]
          simp only [List.length_append, List.length_singleton]
          omega
    · have hset : newTokenSet stop st.words (v :: rest) = newTokenSet stop st.words rest := by
        unfold newTokenSet
        rw [List.filter_cons, if_neg hq]
      have hst : learnTokens stop st n (v :: rest) = learnTokens stop st n rest := by
        simp [learnTokens, hq]
      rw [hst, hset]
      exact ih st n

/-- The new_words_learned counter of one learn call counts the distinct new
qualifying tokens. -/
theorem learn_newWords_eq (stop : List String) (st : VocabStore) (text : String) :
    (learn_from_message stop st text).newWordsLearned = newDistinct stop st text := by
  have h := (learnTokens_count stop (cleanTokens text) st 0).1
  simpa [learn_from_message, newDistinct] using h

/-- One learn call grows the word count by exactly the number of distinct
new qualifying tokens. -/
theorem learn_words_length (stop : List String) (st : VocabStore) (text : String) :
    (learn_from_message stop st text).store.words.length
      = st.words.length + newDistinct stop st text := by
  have h := (learnTokens_count stop (cleanTokens text) st 0).2
  simpa [learn_from_message, newDistinct] using h

/-- save_learned_words runs exactly when a new word was added. -/
theorem learn_saved_iff (stop : List String) (st : VocabStore) (text : String) :
    (learn_from_message stop st text).saved = true ↔ 0 < newDistinct stop st text := by
  show decide (0 < (learnTokens stop st 0 (cleanTokens text)).2) = true ↔ _
  rw [decide_eq_true_eq, (learnTokens_count stop (cleanTokens text) st 0).1]
  unfold newDistinct
  omega

/-- learn_from_message has no return statement: its value is None. -/
theorem learn_retVal (stop : List String) (st : VocabStore) (text : String) :
    (learn_from_message stop st text).retVal = none := rfl

/-- When every qualifying token is already known, the learning loop leaves
the word list untouched and counts nothing. -/
theorem learnTokens_known (stop : List String) :
    ∀ (ts : List String) (st : VocabStore) (n : Nat),
      (∀ t ∈ ts, qualifies stop t = true → t ∈ st.words) →
      (learnTokens stop st n ts).1.words = st.words ∧ (learnTokens stop st n ts).2 = n := by
  intro ts
  induction ts with
  | nil =>
    intro st n _
    exact ⟨rfl, rfl⟩
  | cons v rest ih =>
    intro st n h
    by_cases hq : qualifies stop v = true
    · have hm : v ∈ st.words := h v (by simp) hq
      have hc : st.words.contains v = true := (contains_iff _ _).mpr hm
      have hst : learnTokens stop st n (v :: rest)
          = learnTokens stop ⟨addWord v st.words, incrFreq st.frequency v⟩
              (if st.words.contains v then n else n + 1) rest := by
        simp [learnTokens, hq]
      have haw : addWord v st.words = st.words := by
        unfold addWord
        rw [if_pos hc]
      rw [hst, if_pos hc, haw]
      exact ih ⟨st.words, incrFreq st.frequency v⟩ n
        fun t ht hqt => h t (List.mem_cons_of_mem _ ht) hqt
    · have hst : learnTokens stop st n (v :: rest) = learnTokens stop st n rest := by
        simp [learnTokens, hq]
      rw [hst]
      exact ih st n fun t ht hqt => h t (List.mem_cons_of_mem _ ht) hqt

/-- Incrementing one word raises the total frequency mass by one. -/
theorem totalFreq_incrFreq (f : List (String × Nat)) (w : String) :
    totalFreq (incrFreq f w) = totalFreq f + 1 := by
  induction f with
  | nil => rfl
  | cons p rest ih =>
    obtain ⟨k, x⟩ := p
    by_cases h : k = w
    · subst h
      have hr : incrFreq ((k, x) :: rest) k = (k, x + 1) :: rest := by
        unfold incrFreq
        rw [if_pos rfl]
      rw [hr]
      simp only [totalFreq, List.map_cons, List.sum_cons]
      omega
    · have hr : incrFreq ((k, x) :: rest) w = (k, x) :: incrFreq rest w := by
        simp only [incrFreq, if_neg h]
      rw [hr]
      simp only [totalFreq, List.map_cons, List.sum_cons]
      unfold totalFreq at ih
      omega

/-- The learning loop adds one unit of frequency mass per qualifying token
occurrence. -/
theorem learnTokens_totalFreq (stop : List String) :
    ∀ (ts : List String) (st : VocabStore) (n : Nat),
      totalFreq (learnTokens stop st n ts).1.frequency
        = totalFreq st.frequency + (ts.filter (qualifies stop)).length := by
  intro ts
  induction ts with
  | nil =>
    intro st n
    simp [learnTokens]
  | cons v rest ih =>
    intro st n
    by_cases hq : qualifies stop v = true
    · have hst : learnTokens stop st n (v :: rest)
          = learnTokens stop ⟨addWord v st.words, incrFreq st.frequency v⟩
              (if st.words.contains v then n else n + 1) rest := by
        simp [learnTokens, hq]
      rw [hst, ih ⟨addWord v st.words, incrFreq st.frequency v⟩]
      have hf : (VocabStore.mk (addWord v st.words) (incrFreq st.frequency v)).frequency
          = incrFreq st.frequency v := rfl
      rw [hf, totalFreq_incrFreq, List.filter_cons, if_pos hq]
      simp only [List.length_cons]
      omega
    · have hst : learnTokens stop st n (v :: rest) = learnTokens stop st n rest := by
        simp [learnTokens, hq]
      rw [hst, ih st n, List.filter_cons, if_neg hq]

/-- Incrementing a word raises its own count by one. -/
theorem lookupFreq_incrFreq_self (f : List (String × Nat)) (w : String) :
    lookupFreq (incrFreq f w) w = lookupFreq f w + 1 := by
  induction f with
  | nil => simp [incrFreq, lookupFreq]
  | cons p rest ih =>
    obtain ⟨k, x⟩ := p
    by_cases h : k = w
    · subst h
      simp [incrFreq, lookupFreq]
    · simp [incrFreq, lookupFreq, h, ih]

/-- Incrementing any word never lowers any count. -/
theorem lookupFreq_le_incrFreq (f : List (String × Nat)) (v w : String) :
    lookupFreq f w ≤ lookupFreq (incrFreq f v) w := by
  induction f with
  | nil =>
    simp [incrFreq, lookupFreq]
  | cons p rest ih =>
    obtain ⟨k, x⟩ := p
    by_cases h : k = v
    · subst h
      by_cases h2 : k = w
      · subst h2
        simp [incrFreq, lookupFreq]
      · simp [incrFreq, lookupFreq, h2]
    · by_cases h2 : k = w
      · subst h2
        simp [incrFreq, lookupFreq, h]
      · simp [incrFreq, lookupFreq, h, h2, ih]

/-- The learning loop never lowers any frequency count. -/
theorem lookupFreq_le_learnTokens (stop : List String) :
    ∀ (ts : List String) (st : VocabStore) (n : Nat) (w : String),
      lookupFreq st.frequency w ≤ lookupFreq (learnTokens stop st n ts).1.frequency w := by
  intro ts
  induction ts with
  | nil =>
    intro st n w
    exact le_refl _
  | cons v rest ih =>
    intro st n w
    by_cases hq : qualifies stop v = true
    · have hst : learnTokens stop st n (v :: rest)
          = learnTokens stop ⟨addWord v st.words, incrFreq st.frequency v⟩
              (if st.words.contains v then n else n + 1) rest := by
        simp [learnTokens, hq]
      rw [hst]
      calc lookupFreq st.frequency w ≤ lookupFreq (incrFreq st.frequency v) w :=
            lookupFreq_le_incrFreq _ _ _
        _ ≤ _ := ih ⟨addWord v st.words, incrFreq st.frequency v⟩ _ w
    · have hst : learnTokens stop st n (v :: rest) = learnTokens stop st n rest := by
        simp [learnTokens, hq]
      rw [hst]
      exact ih st n w

/-- Every qualifying token processed by the learning loop ends with a
positive frequency count. -/
theorem learnTokens_freq_pos (stop : List String) :
    ∀ (ts : List String) (st : VocabStore) (n : Nat) (t : String),
      t ∈ ts → qualifies stop t = true →
      1 ≤ lookupFreq (learnTokens stop st n ts).1.frequency t := by
  intro ts
  induction ts with
  | nil =>
    intro st n t ht _
    cases ht
  | cons v rest ih =>
    intro st n t ht hq
    rcases List.mem_cons.mp ht with rfl | h2
    · have hst : learnTokens stop st n (t :: rest)
          = learnTokens stop ⟨addWord t st.words, incrFreq st.frequency t⟩
              (if st.words.contains t then n else n + 1) rest := by
        simp [learnTokens, hq]
      rw [hst]
      have h1 : 1 ≤ lookupFreq (incrFreq st.frequency t) t := by
        rw [lookupFreq_incrFreq_self]
        omega
      calc 1 ≤ lookupFreq (incrFreq st.frequency t) t := h1
        _ ≤ _ := lookupFreq_le_learnTokens stop rest
            ⟨addWord t st.words, incrFreq st.frequency t⟩ _ t
    · by_cases hq2 : qualifies stop v = true
      · have hst : learnTokens stop st n (v :: rest)
            = learnTokens stop ⟨addWord v st.words, incrFreq st.frequency v⟩
                (if st.words.contains v then n else n + 1) rest := by
          simp [learnTokens, hq2]
        rw [hst]
        exact ih ⟨addWord v st.words, incrFreq st.frequency v⟩ _ t h2 hq
      · have hst : learnTokens stop st n (v :: rest) = learnTokens stop st n rest := by
          simp [learnTokens, hq2]
        rw [hst]
        exact ih st n t h2 hq

/-- Keys after a frequency increment: the incremented word or an old key. -/
theorem incrFreq_keys (f : List (String × Nat)) (v : String) :
    ∀ p ∈ incrFreq f v, p.1 = v ∨ p.1 ∈ freqKeys f := by
  induction f with
  | nil =>
    intro p hp
    simp only [incrFreq, List.mem_singleton] at hp
    subst hp
    exact Or.inl rfl
  | cons q rest ih =>
    obtain ⟨k, x⟩ := q
    intro p hp
    by_cases h : k = v
    · subst h
      simp only [incrFreq, if_pos rfl] at hp
      rcases List.mem_cons.mp hp with rfl | h2
      · exact Or.inl rfl
      · refine Or.inr ?_
        simp only [freqKeys, List.map_cons, List.mem_cons]
        exact Or.inr (List.mem_map_of_mem _ h2)
    · simp only [incrFreq, if_neg h] at hp
      rcases List.mem_cons.mp hp with rfl | h2
      · exact Or.inr (by simp [freqKeys])
      · rcases ih p h2 with h3 | h3
        · exact Or.inl h3
        · refine Or.inr ?_
          simp only [freqKeys, List.map_cons, List.mem_cons]
          right
          simpa [freqKeys] using h3

/-- The learning loop preserves the keys-name-words invariant. -/
theorem learnTokens_keys (stop : List String) :
    ∀ (ts : List String) (st : VocabStore) (n : Nat),
      (∀ p ∈ st.frequency, p.1 ∈ st.words) →
      ∀ p ∈ (learnTokens stop st n ts).1.frequency,
        p.1 ∈ (learnTokens stop st n ts).1.words := by
  intro ts
  induction ts with
  | nil =>
    intro st n h
    exact h
  | cons v rest ih =>
    intro st n h
    by_cases hq : qualifies stop v = true
    · have hst : learnTokens stop st n (v :: rest)
          = learnTokens stop ⟨addWord v st.words, incrFreq st.frequency v⟩
              (if st.words.contains v then n else n + 1) rest := by
        simp [learnTokens, hq]
      rw [hst]
      refine ih ⟨addWord v st.words, incrFreq st.frequency v⟩ _ ?_
      intro q hq2
      rcases incrFreq_keys st.frequency v q hq2 with h3 | h3
      · show q.1 ∈ addWord v st.words
        rw [h3]
        exact mem_addWord.mpr (Or.inr rfl)
      · rcases List.mem_map.mp h3 with ⟨r, hr, hre⟩
        have h4 := h r hr
        show q.1 ∈ addWord v st.words
        rw [← hre]
        exact mem_addWord.mpr (Or.inl h4)
    · have hst : learnTokens stop st n (v :: rest) = learnTokens stop st n rest := by
        simp [learnTokens, hq]
      rw [hst]
      exact ih st n h

/-- Across the whole stable lifecycle the frequency keys name words. -/
theorem lifecycleS_keys : ∀ st, LifecycleS st → KeysSub st := by
  intro st h
  induction h with
  | seed =>
    intro p hp
    cases hp
  | learn st text _ ih => exact learnTokens_keys stopStable (cleanTokens text) st 0 ih
  | reset st _ =>
    intro p hp
    cases hp

/-- Role pools only hold learned words. -/
theorem inWords_mem {st : VocabStore} {l : List String} :
    ∀ w ∈ inWords st l, w ∈ st.words := by
  intro w hw
  have h := List.mem_filter.mp hw
  exact (contains_iff _ _).mp h.2

/-- Picking from a non-empty role pool yields a learned word. -/
theorem pick_inWords_mem {st : VocabStore} {l : List String}
    (h : inWords st l ≠ []) (i : Nat) : pick (inWords st l) i ∈ st.words :=
  inWords_mem _ (pick_mem h i)

/-- A boolean emptiness refutation gives list non-emptiness. -/
theorem ne_nil_of_not_isEmpty {l : List String} (h : ¬l.isEmpty = true) : l ≠ [] :=
  fun e => h (List.isEmpty_iff.mpr e)

/-- Filtering away one element of a duplicate-free list of length at least
two leaves something. -/
theorem filter_ne_nonempty {l : List String} (hnd : l.Nodup) (hlen : 1 < l.length)
    (w1 : String) : l.filter (fun w => w ≠ w1) ≠ [] := by
  intro e
  have hall : ∀ a ∈ l, a = w1 := by
    intro a ha
    have h2 := List.filter_eq_nil_iff.mp e a ha
    simpa using h2
  match l, hnd, hlen, hall with
  | a :: b :: t, hnd, _, hall =>
    have ha : a = w1 := hall a (by simp)
    have hb : b = w1 := hall b (by simp)
    have : a ∉ b :: t := (List.nodup_cons.mp hnd).1
    exact this (by rw [ha, hb]; simp)

/-- Stable connector step closure. -/
theorem stageConnectorS_mem (st : VocabStore) (rng : RngS) :
    ∀ w ∈ stageConnectorS st rng, w ∈ st.words := by
  intro w hw
  simp only [stageConnectorS] at hw
  split at hw
  · cases hw
  · rename_i h
    rcases List.mem_singleton.mp hw with rfl
    exact pick_inWords_mem (ne_nil_of_not_isEmpty h) _

/-- Stable Tyler step closure. -/
theorem stageTylerS_mem (st : VocabStore) (rng : RngS) {rw : List String}
    (h : ∀ w ∈ rw, w ∈ st.words) : ∀ w ∈ stageTylerS st rng rw, w ∈ st.words := by
  intro w hw
  simp only [stageTylerS] at hw
  split at hw
  · rename_i hcond
    rcases Bool.and_eq_true_iff.mp hcond with ⟨h1, _⟩
    have htne : inWords st tylerCandidates ≠ [] := by
      intro e
      rw [e] at h1
      cases h1
    split at hw
    · rename_i hcond2
      rcases Bool.and_eq_true_iff.mp hcond2 with ⟨hlen, _⟩
      have hlen2 : 1 < (inWords st tylerCandidates).length := by simpa using hlen
      have hnd : (inWords st tylerCandidates).Nodup :=
        List.Nodup.filter _ (by decide)
      rcases List.mem_append.mp hw with hw2 | hw2
      · rcases List.mem_append.mp hw2 with hw3 | hw3
        · exact h w hw3
        · rcases List.mem_singleton.mp hw3 with rfl
          exact pick_inWords_mem htne _
      · rcases List.mem_singleton.mp hw2 with rfl
        have hpne := filter_ne_nonempty hnd hlen2 (pick (inWords st tylerCandidates) rng.tIdx)
        have hp := pick_mem hpne rng.t2Idx
        exact inWords_mem _ (List.mem_of_mem_filter hp)
    · rcases List.mem_append.mp hw with hw2 | hw2
      · exact h w hw2
      · rcases List.mem_singleton.mp hw2 with rfl
        exact pick_inWords_mem htne _
  · exact h w hw

/-- Stable reaction step closure. -/
theorem stageReactionS_mem (st : VocabStore) (rng : RngS) {rw : List String}
    (h : ∀ w ∈ rw, w ∈ st.words) : ∀ w ∈ stageReactionS st rng rw, w ∈ st.words := by
  intro w hw
  simp only [stageReactionS] at hw
  split at hw
  · rename_i hcond
    rcases Bool.and_eq_true_iff.mp hcond with ⟨h1, _⟩
    have hne : inWords st reactionCandidatesS ≠ [] := by
      intro e
      rw [e] at h1
      cases h1
    rcases List.mem_append.mp hw with hw2 | hw2
    · exact h w hw2
    · rcases List.mem_singleton.mp hw2 with rfl
      exact pick_inWords_mem hne _
  · exact h w hw

/-- The stable fill pool only holds learned words. -/
theorem fillPoolS_mem (st : VocabStore) (rw : List String) :
    ∀ w ∈ fillPoolS st rw, w ∈ st.words := by
  intro w hw
  unfold fillPoolS at hw
  have h := List.mem_filter.mp hw
  rcases Bool.and_eq_true_iff.mp h.2 with ⟨h1, _⟩
  exact (contains_iff _ _).mp h1

/-- Stable fill step closure. -/
theorem stageFillS_mem (st : VocabStore) (rng : RngS) {rw : List String}
    (h : ∀ w ∈ rw, w ∈ st.words) : ∀ w ∈ stageFillS st rng rw, w ∈ st.words := by
  intro w hw
  simp only [stageFillS] at hw
  split at hw
  · rcases List.mem_append.mp hw with hw2 | hw2
    · exact h w hw2
    · exact fillPoolS_mem st rw w (sampleTwo_subset _ _ w hw2)
  · exact h w hw

/-- Stable last-resort step closure. -/
theorem stageEnsureS_mem (st : VocabStore) (rng : RngS) {rw : List String}
    (h : ∀ w ∈ rw, w ∈ st.words) : ∀ w ∈ stageEnsureS st rng rw, w ∈ st.words := by
  intro w hw
  simp only [stageEnsureS] at hw
  split at hw
  · rename_i hcond
    rcases List.mem_singleton.mp hw with rfl
    rcases Bool.and_eq_true_iff.mp hcond with ⟨_, h2⟩
    exact (contains_iff _ _).mp h2
  · split at hw
    · split at hw
      · cases hw
      · rename_i hcond3
        rcases List.mem_singleton.mp hw with rfl
        exact pick_mem (ne_nil_of_not_isEmpty hcond3) _
    · exact h w hw

/-- Stable last-resort step yields something when words exist. -/
theorem stageEnsureS_ne_nil (st : VocabStore) (rng : RngS) (rw : List String)
    (hwords : st.words ≠ []) : stageEnsureS st rng rw ≠ [] := by
  simp only [stageEnsureS]
  split
  · simp
  · split
    · split
      · rename_i hcond
        exact absurd (List.isEmpty_iff.mp hcond) hwords
      · simp
    · rename_i hcond
      exact ne_nil_of_not_isEmpty hcond

/-- Every word of the stable generator output list is learned. -/
theorem genWordsS_mem (st : VocabStore) (rng : RngS) :
    ∀ w ∈ genWordsS st rng, w ∈ st.words := by
  intro w hw
  have h1 := List.take_subset _ _ hw
  exact stageEnsureS_mem st rng
    (stageFillS_mem st rng (stageReactionS_mem st rng
      (stageTylerS_mem st rng (stageConnectorS_mem st rng)))) w h1

/-- The stable generator output list is non-empty when words exist. -/
theorem genWordsS_ne_nil (st : VocabStore) (rng : RngS) (hwords : st.words ≠ []) :
    genWordsS st rng ≠ [] := by
  unfold genWordsS
  intro e
  rcases List.take_eq_nil_iff.mp e with h | h
  · exact absurd h (by decide)
  · exact stageEnsureS_ne_nil st rng _ hwords h

/-- Vocabulary closure and non-emptiness of the stable generator on stores
of good tokens. -/
theorem generateS_spec (st : VocabStore) (rng : RngS) (hwords : st.words ≠ [])
    (hinv : ∀ w ∈ st.words, goodToken w) :
    (∀ t ∈ splitWs (generate_response_from_learned_words st rng), t ∈ st.words) ∧
      generate_response_from_learned_words st rng ≠ "" := by
  have hne := genWordsS_ne_nil st rng hwords
  have hmem := genWordsS_mem st rng
  have hgood : ∀ w ∈ genWordsS st rng, goodToken w := fun w hw => hinv w (hmem w hw)
  have hgen : generate_response_from_learned_words st rng = joinSpace (genWordsS st rng) := by
    simp only [generate_response_from_learned_words]
    rw [if_neg fun h2 => hne (List.isEmpty_iff.mp h2)]
  rw [hgen, splitWs_joinSpace _ hgood]
  exact ⟨hmem, joinSpace_ne_empty hne hgood⟩

/-- Thanks branch closure. -/
theorem ctxThanksC_mem (st : VocabStore) : ∀ w ∈ ctxThanksC st, w ∈ st.words := by
  intro w hw
  simp only [ctxThanksC] at hw
  split at hw
  · rename_i hy
    split at hw
    · rename_i hm
      rcases List.mem_cons.mp hw with rfl | hw2
      · exact (contains_iff _ _).mp hy
      · rcases List.mem_singleton.mp hw2 with rfl
        exact (contains_iff _ _).mp hm
    · rcases List.mem_singleton.mp hw with rfl
      exact (contains_iff _ _).mp hy
  · cases hw

/-- Cool-or-nice branch closure. -/
theorem ctxCoolC_mem (st : VocabStore) (rng : RngC) : ∀ w ∈ ctxCoolC st rng, w ∈ st.words := by
  intro w hw
  simp only [ctxCoolC] at hw
  split at hw
  · cases hw
  · rename_i hne
    split at hw
    · rename_i hcond
      rcases Bool.and_eq_true_iff.mp hcond with ⟨_, hm⟩
      rcases List.mem_append.mp hw with hw2 | hw2
      · rcases List.mem_singleton.mp hw2 with rfl
        exact pick_inWords_mem (ne_nil_of_not_isEmpty hne) _
      · rcases List.mem_singleton.mp hw2 with rfl
        exact (contains_iff _ _).mp hm
    · rcases List.mem_singleton.mp hw with rfl
      exact pick_inWords_mem (ne_nil_of_not_isEmpty hne) _

/-- Gaming branch closure, under the non-empty gaming pool guard. -/
theorem ctxGamingC_mem (st : VocabStore) (rng : RngC)
    (hg : inWords st gamingCandidates ≠ []) : ∀ w ∈ ctxGamingC st rng, w ∈ st.words := by
  intro w hw
  simp only [ctxGamingC] at hw
  split at hw
  · rename_i hcond
    rcases Bool.and_eq_true_iff.mp hcond with ⟨hd, _⟩
    have hdne : inWords st descriptorCandidates ≠ [] := by
      intro e
      rw [e] at hd
      cases hd
    rcases List.mem_append.mp hw with hw2 | hw2
    · rcases List.mem_singleton.mp hw2 with rfl
      exact pick_inWords_mem hg _
    · rcases List.mem_singleton.mp hw2 with rfl
      exact pick_inWords_mem hdne _
  · rcases List.mem_singleton.mp hw with rfl
    exact pick_inWords_mem hg _

/-- Connector start of the question and default branches only yields learned
words. -/
theorem ctxConnStart_mem (st : VocabStore) (i : Nat) :
    ∀ w ∈ (if (inWords st connectorCandidatesC).isEmpty then ([] : List String)
      else [pick (inWords st connectorCandidatesC) i]), w ∈ st.words := by
  intro w hw
  split at hw
  · cases hw
  · rename_i hne
    rcases List.mem_singleton.mp hw with rfl
    exact pick_inWords_mem (ne_nil_of_not_isEmpty hne) _

/-- Question branch closure. -/
theorem ctxQuestionC_mem (st : VocabStore) (rng : RngC) :
    ∀ w ∈ ctxQuestionC st rng, w ∈ st.words := by
  intro w hw
  simp only [ctxQuestionC] at hw
  split at hw
  · split at hw
    · rename_i hcond
      rcases Bool.and_eq_true_iff.mp hcond with ⟨_, hd⟩
      have hdne : inWords st descriptorCandidates ≠ [] := by
        intro e
        rw [e] at hd
        cases hd
      rcases List.mem_append.mp hw with hw2 | hw2
      · cases hw2
      · rcases List.mem_singleton.mp hw2 with rfl
        exact pick_inWords_mem hdne _
    · cases hw
  · rename_i hne
    split at hw
    · rename_i hcond
      rcases Bool.and_eq_true_iff.mp hcond with ⟨_, hd⟩
      have hdne : inWords st descriptorCandidates ≠ [] := by
        intro e
        rw [e] at hd
        cases hd
      rcases List.mem_append.mp hw with hw2 | hw2
      · rcases List.mem_singleton.mp hw2 with rfl
        exact pick_inWords_mem (ne_nil_of_not_isEmpty hne) _
      · rcases List.mem_singleton.mp hw2 with rfl
        exact pick_inWords_mem hdne _
    · rcases List.mem_singleton.mp hw with rfl
      exact pick_inWords_mem (ne_nil_of_not_isEmpty hne) _

/-- Default branch connector start closure. -/
theorem ctxDefaultConnC_mem (st : VocabStore) (rng : RngC) :
    ∀ w ∈ ctxDefaultConnC st rng, w ∈ st.words := by
  intro w hw
  simp only [ctxDefaultConnC] at hw
  split at hw
  · cases hw
  · rename_i hne
    rcases List.mem_singleton.mp hw with rfl
    exact pick_inWords_mem (ne_nil_of_not_isEmpty hne) _

/-- Default branch Tyler step closure. -/
theorem ctxDefaultTylerC_mem (st : VocabStore) (rng : RngC) {rw : List String}
    (h : ∀ w ∈ rw, w ∈ st.words) : ∀ w ∈ ctxDefaultTylerC st rng rw, w ∈ st.words := by
  intro w hw
  simp only [ctxDefaultTylerC] at hw
  split at hw
  · rename_i hcond
    rcases Bool.and_eq_true_iff.mp hcond with ⟨h1, _⟩
    have htne : inWords st tylerCandidates ≠ [] := by
      intro e
      rw [e] at h1
      cases h1
    rcases List.mem_append.mp hw with hw2 | hw2
    · exact h w hw2
    · rcases List.mem_singleton.mp hw2 with rfl
      exact pick_inWords_mem htne _
  · exact h w hw

/-- Default branch reaction step closure. -/
theorem ctxDefaultReactC_mem (st : VocabStore) (rng : RngC) {rw : List String}
    (h : ∀ w ∈ rw, w ∈ st.words) : ∀ w ∈ ctxDefaultReactC st rng rw, w ∈ st.words := by
  intro w hw
  simp only [ctxDefaultReactC] at hw
  split at hw
  · rename_i hcond
    rcases Bool.and_eq_true_iff.mp hcond with ⟨h1, _⟩
    have hane : inWords st positiveCandidates ++ inWords st neutralCandidates ≠ [] := by
      intro e
      rw [e] at h1
      cases h1
    rcases List.mem_append.mp hw with hw2 | hw2
    · exact h w hw2
    · rcases List.mem_singleton.mp hw2 with rfl
      have hp := pick_mem hane rng.reactIdx
      rcases List.mem_append.mp hp with hp2 | hp2
      · exact inWords_mem _ hp2
      · exact inWords_mem _ hp2
  · exact h w hw

/-- Default branch closure. -/
theorem ctxDefaultC_mem (st : VocabStore) (rng : RngC) :
    ∀ w ∈ ctxDefaultC st rng, w ∈ st.words :=
  ctxDefaultReactC_mem st rng (ctxDefaultTylerC_mem st rng (ctxDefaultConnC_mem st rng))

/-- Cloud context step closure. -/
theorem stageContextC_mem (st : VocabStore) (ctx : String) (rng : RngC) :
    ∀ w ∈ stageContextC st ctx rng, w ∈ st.words := by
  intro w hw
  simp only [stageContextC] at hw
  split at hw
  · exact ctxThanksC_mem st w hw
  · split at hw
    · exact ctxCoolC_mem st rng w hw
    · split at hw
      · rename_i hcond
        rcases Bool.and_eq_true_iff.mp hcond with ⟨_, hg⟩
        have hgne : inWords st gamingCandidates ≠ [] := by
          intro e
          rw [e] at hg
          cases hg
        exact ctxGamingC_mem st rng hgne w hw
      · split at hw
        · exact ctxQuestionC_mem st rng w hw
        · exact ctxDefaultC_mem st rng w hw

/-- The cloud fill pool only holds learned words. -/
theorem fillPoolC_mem (st : VocabStore) (rw : List String) :
    ∀ w ∈ fillPoolC st rw, w ∈ st.words := by
  intro w hw
  unfold fillPoolC at hw
  have h := List.mem_filter.mp hw
  rcases Bool.and_eq_true_iff.mp h.2 with ⟨h1, _⟩
  rcases Bool.and_eq_true_iff.mp h1 with ⟨h2, _⟩
  rcases Bool.and_eq_true_iff.mp h2 with ⟨h3, _⟩
  exact (contains_iff _ _).mp h3

/-- Cloud fill step closure. -/
theorem stageFillC_mem (st : VocabStore) (rng : RngC) {rw : List String}
    (h : ∀ w ∈ rw, w ∈ st.words) : ∀ w ∈ stageFillC st rng rw, w ∈ st.words := by
  intro w hw
  simp only [stageFillC] at hw
  split at hw
  · rcases List.mem_append.mp hw with hw2 | hw2
    · exact h w hw2
    · exact fillPoolC_mem st rw w (sampleTwo_subset _ _ w hw2)
  · exact h w hw

/-- Cloud last-resort step closure. -/
theorem stageEnsureC_mem (st : VocabStore) (rng : RngC) {rw : List String}
    (h : ∀ w ∈ rw, w ∈ st.words) : ∀ w ∈ stageEnsureC st rng rw, w ∈ st.words := by
  intro w hw
  simp only [stageEnsureC] at hw
  split at hw
  · split at hw
    · rename_i hy
      rcases List.mem_singleton.mp hw with rfl
      exact (contains_iff _ _).mp hy
    · split at hw
      · rename_i hm
        rcases List.mem_singleton.mp hw with rfl
        exact (contains_iff _ _).mp hm
      · split at hw
        · cases hw
        · rename_i hwne
          split at hw
          · rcases List.mem_singleton.mp hw with rfl
            exact pick_mem (ne_nil_of_not_isEmpty hwne) _
          · rename_i hcond
            rcases List.mem_singleton.mp hw with rfl
            have hp := pick_mem (ne_nil_of_not_isEmpty hcond) rng.safeIdx
            exact List.mem_of_mem_filter hp
  · exact h w hw

/-- Cloud last-resort step yields something when words exist. -/
theorem stageEnsureC_ne_nil (st : VocabStore) (rng : RngC) (rw : List String)
    (hwords : st.words ≠ []) : stageEnsureC st rng rw ≠ [] := by
  simp only [stageEnsureC]
  split
  · split
    · simp
    · split
      · simp
      · split
        · rename_i hcond
          exact absurd (List.isEmpty_iff.mp hcond) hwords
        · split
          · simp
          · simp
  · rename_i hcond
    exact ne_nil_of_not_isEmpty hcond

/-- Every word of the cloud generator output list is learned. -/
theorem genWordsC_mem (st : VocabStore) (ctx : String) (rng : RngC) :
    ∀ w ∈ genWordsC st ctx rng, w ∈ st.words := by
  intro w hw
  have h1 := List.take_subset _ _ hw
  exact stageEnsureC_mem st rng
    (stageFillC_mem st rng (stageContextC_mem st (pyLower ctx) rng)) w h1

/-- The cloud generator output list is non-empty when words exist. -/
theorem genWordsC_ne_nil (st : VocabStore) (ctx : String) (rng : RngC)
    (hwords : st.words ≠ []) : genWordsC st ctx rng ≠ [] := by
  unfold genWordsC
  intro e
  rcases List.take_eq_nil_iff.mp e with h | h
  · exact absurd h (by decide)
  · exact stageEnsureC_ne_nil st rng _ hwords h

/-- Vocabulary closure and non-emptiness of the cloud generator on stores of
good tokens. -/
theorem generateC_spec (st : VocabStore) (ctx : String) (rng : RngC)
    (hwords : st.words ≠ []) (hinv : ∀ w ∈ st.words, goodToken w) :
    (∀ t ∈ splitWs (generate_response st ctx rng), t ∈ st.words) ∧
      generate_response st ctx rng ≠ "" := by
  have hne := genWordsC_ne_nil st ctx rng hwords
  have hmem := genWordsC_mem st ctx rng
  have hgood : ∀ w ∈ genWordsC st ctx rng, goodToken w := fun w hw => hinv w (hmem w hw)
  have hgen : generate_response st ctx rng = joinSpace (genWordsC st ctx rng) := by
    simp only [generate_response]
    rw [if_neg fun h2 => hne (List.isEmpty_iff.mp h2)]
  rw [hgen, splitWs_joinSpace _ hgood]
  exact ⟨hmem, joinSpace_ne_empty hne hgood⟩

/-- Containment in the empty list is false. -/
theorem contains_nil (w : String) : ([] : List String).contains w = false := rfl

/-- Role pools of a store without words are empty. -/
theorem inWords_nil_words (f : List (String × Nat)) (l : List String) :
    inWords ⟨[], f⟩ l = [] := by
  unfold inWords
  apply List.filter_eq_nil_iff.mpr
  intro a _
  simp [contains_nil]

/-- The stable fill pool of a store without words is empty. -/
theorem fillPoolS_nil_words (f : List (String × Nat)) (rw : List String) :
    fillPoolS ⟨[], f⟩ rw = [] := by
  unfold fillPoolS
  apply List.filter_eq_nil_iff.mpr
  intro a _
  simp [contains_nil]

/-- The cloud fill pool of a store without words is empty. -/
theorem fillPoolC_nil_words (f : List (String × Nat)) (rw : List String) :
    fillPoolC ⟨[], f⟩ rw = [] := by
  unfold fillPoolC
  apply List.filter_eq_nil_iff.mpr
  intro a _
  simp [contains_nil]

/-- With no learned words, the stable generator emits the ellipsis
sentinel, whatever the frequency table and the random draws. -/
theorem generateS_empty (f : List (String × Nat)) (rng : RngS) :
    generate_response_from_learned_words ⟨[], f⟩ rng = "..." := by
  have h1 : stageConnectorS ⟨[], f⟩ rng = [] := by
    simp [stageConnectorS, inWords_nil_words]
  have h2 : stageTylerS ⟨[], f⟩ rng [] = [] := by
    simp [stageTylerS, inWords_nil_words]
  have h3 : stageReactionS ⟨[], f⟩ rng [] = [] := by
    simp [stageReactionS, inWords_nil_words]
  have h4 : stageFillS ⟨[], f⟩ rng [] = [] := by
    simp [stageFillS, fillPoolS_nil_words, sampleTwo]
  have h5 : stageEnsureS ⟨[], f⟩ rng [] = [] := by
    simp [stageEnsureS, contains_nil]
  have h6 : genWordsS ⟨[], f⟩ rng = [] := by
    unfold genWordsS
    rw [h1, h2, h3, h4, h5]
    rfl
  simp only [generate_response_from_learned_words, h6]
  rfl

/-- With no learned words, the cloud generator emits the fixed fallback
string yeah mate, whatever the context, frequency table and draws. -/
theorem generateC_empty (f : List (String × Nat)) (ctx : String) (rng : RngC) :
    generate_response ⟨[], f⟩ ctx rng = "yeah mate" := by
  have hth : ctxThanksC ⟨[], f⟩ = [] := by
    simp [ctxThanksC, contains_nil]
  have hco : ctxCoolC ⟨[], f⟩ rng = [] := by
    simp [ctxCoolC, inWords_nil_words]
  have hqu : ctxQuestionC ⟨[], f⟩ rng = [] := by
    simp [ctxQuestionC, inWords_nil_words]
  have hde : ctxDefaultC ⟨[], f⟩ rng = [] := by
    simp [ctxDefaultC, ctxDefaultConnC, ctxDefaultTylerC, ctxDefaultReactC, inWords_nil_words]
  have hctx : stageContextC ⟨[], f⟩ (pyLower ctx) rng = [] := by
    simp [stageContextC, inWords_nil_words, hth, hco, hqu, hde]
  have hfi : stageFillC ⟨[], f⟩ rng [] = [] := by
    simp [stageFillC, fillPoolC_nil_words, sampleTwo]
  have hen : stageEnsureC ⟨[], f⟩ rng [] = [] := by
    simp [stageEnsureC, contains_nil]
  have h6 : genWordsC ⟨[], f⟩ ctx rng = [] := by
    unfold genWordsC
    rw [hctx, hfi, hen]
    rfl
  simp only [generate_response, h6]
  rfl

/-- When the vocabulary is non-empty but every stable role pool and the
frequency fill are empty, the stable generator falls back to a single
uniformly drawn learned word. -/
theorem generateS_pools_empty (st : VocabStore) (rng : RngS)
    (hw : st.words ≠ [])
    (hc : inWords st connectorCandidatesS = [])
    (ht : inWords st tylerCandidates = [])
    (hr : inWords st reactionCandidatesS = [])
    (hf : fillPoolS st [] = []) :
    generate_response_from_learned_words st rng = pick st.words rng.lIdx ∧
      pick st.words rng.lIdx ∈ st.words := by
  have hmate : st.words.contains "mate" = false := by
    cases hcm : st.words.contains "mate"
    · rfl
    · exfalso
      have hm : "mate" ∈ inWords st connectorCandidatesS := by
        unfold inWords
        refine List.mem_filter.mpr ⟨?_, hcm⟩
        decide
      rw [hc] at hm
      cases hm
  have h1 : stageConnectorS st rng = [] := by
    simp [stageConnectorS, hc]
  have h2 : stageTylerS st rng [] = [] := by
    simp [stageTylerS, ht]
  have h3 : stageReactionS st rng [] = [] := by
    simp [stageReactionS, hr]
  have h4 : stageFillS st rng [] = [] := by
    simp [stageFillS, hf, sampleTwo]
  have h5 : stageEnsureS st rng [] = [pick st.words rng.lIdx] := by
    simp only [stageEnsureS, List.isEmpty_nil, hmate, Bool.true_and, Bool.and_false]
    rw [if_neg (by simp), if_pos trivial, if_neg (by simp [List.isEmpty_iff, hw])]
  have h6 : genWordsS st rng = [pick st.words rng.lIdx] := by
    unfold genWordsS
    rw [h1, h2, h3, h4, h5]
    rfl
  constructor
  · simp only [generate_response_from_learned_words, h6]
    rfl
  · exact pick_mem hw _

/-- The validator rejects the empty candidate. -/
theorem is_good_response_empty (st : VocabStore) : is_good_response st "" = false := rfl

/-- The validator rejects any candidate holding an unknown token. -/
theorem is_good_response_unknown (st : VocabStore) (response : String)
    (hex : ∃ w ∈ cleanTokens response, w ∉ st.words) :
    is_good_response st response = false := by
  simp only [is_good_response]
  split
  · rfl
  · split
    · rfl
    · rename_i h2
      exfalso
      rcases hex with ⟨w, hw, hnw⟩
      exact h2 (List.any_eq_true.mpr ⟨w, hw, (bnot_contains_iff _ _).mpr hnw⟩)

/-- When the validator accepts, all tokens are known and the token count
lies between two and eight. -/
theorem is_good_response_true (st : VocabStore) (response : String)
    (h : is_good_response st response = true) :
    (∀ w ∈ cleanTokens response, w ∈ st.words) ∧
      2 ≤ (cleanTokens response).length ∧ (cleanTokens response).length ≤ 8 := by
  simp only [is_good_response] at h
  split at h
  · cases h
  · split at h
    · cases h
    · rename_i h2
      refine ⟨?_, ?_⟩
      · intro w hw
        by_contra hnw
        exact h2 (List.any_eq_true.mpr ⟨w, hw, (bnot_contains_iff _ _).mpr hnw⟩)
      · split at h
        · cases h
        · split at h
          · cases h
          · rename_i h4
            split at h
            · cases h
            · rename_i h5
              constructor
              · omega
              · omega

/-- The three-known-words scenario passes the validator. -/
theorem is_good_response_scenario (st : VocabStore)
    (h1 : "mate" ∈ st.words) (h2 : "tyler" ∈ st.words) (h3 : "massive" ∈ st.words) :
    is_good_response st "mate tyler massive" = true := by
  have htok : cleanTokens "mate tyler massive" = ["mate", "tyler", "massive"] := by decide
  have c1 : st.words.contains "mate" = true := (contains_iff _ _).mpr h1
  have c2 : st.words.contains "tyler" = true := (contains_iff _ _).mpr h2
  have c3 : st.words.contains "massive" = true := (contains_iff _ _).mpr h3
  have hany : ((["mate", "tyler", "massive"] : List String).any fun w => !st.words.contains w)
      = false := by
    simp only [List.any_cons, List.any_nil, c1, c2, c3, Bool.not_true, Bool.or_false,
      Bool.or_self]
  simp only [is_good_response, htok]
  rw [if_neg (by decide)]
  rw [if_neg (by rw [hany]; simp)]
  rw [if_neg (by decide), if_neg (by decide), if_neg (by decide)]

/-- A candidate with the unknown word huge fails the validator. -/
theorem is_good_response_huge (st : VocabStore) (h : "huge" ∉ st.words) :
    is_good_response st "mate tyler huge" = false := by
  apply is_good_response_unknown
  exact ⟨"huge", by decide, h⟩

/-- Updating a channel timestamp makes it the one looked up. -/
theorem lookupTime_setTime (m : List (Nat × ℤ)) (ch : Nat) (t : ℤ) :
    lookupTime (setTime m ch t) ch = some t := by
  induction m with
  | nil => simp [setTime, lookupTime]
  | cons p rest ih =>
    obtain ⟨c, t0⟩ := p
    by_cases h : c = ch
    · subst h
      simp [setTime, lookupTime]
    · simp [setTime, lookupTime, h, ih]

/-- The cloud should_respond refuses inside the cooldown window. -/
theorem should_respond_cloud_cooldown (lastResp : List (Nat × ℤ)) (lastRant : ℤ)
    (channelId : Nat) (now t : ℤ) (content : String) (mentionsBot : Bool) (g : RngGateC)
    (hl : lookupTime lastResp channelId = some t) (hc : now - t < cooldownSecondsC) :
    (should_respond_cloud lastResp lastRant channelId now content mentionsBot g).1 = false := by
  have hd : decide (cooldownSecondsC ≤ now - t) = false := by
    apply decide_eq_false
    unfold cooldownSecondsC at hc ⊢
    omega
  simp [should_respond_cloud, hl, hd]

/-- The stable should_respond refuses inside the cooldown window. -/
theorem should_respond_stable_cooldown (lastResp : List (Nat × ℤ)) (channelId : Nat)
    (now t : ℤ) (content : String) (mentionsBot authorIsBot : Bool) (g : RngGateS)
    (hl : lookupTime lastResp channelId = some t) (hc : now - t < cooldownSecondsS) :
    should_respond_stable lastResp channelId now content mentionsBot authorIsBot g = false := by
  have hd : decide (cooldownSecondsS ≤ now - t) = false := by
    apply decide_eq_false
    unfold cooldownSecondsS at hc ⊢
    omega
  unfold should_respond_stable
  split
  · rfl
  · rw [hl]
    simp [hd]

/-- After a cloud send, the channel timestamp is the send time. -/
theorem on_message_cloud_sent {s : BotStateC} {ch : Nat} {now : ℤ} {content : String}
    {m : Bool} {g : RngGateC}
    (h : (on_message_cloud s ch now content m false g).2 = true) :
    (on_message_cloud s ch now content m false g).1.lastResponseTime
      = setTime s.lastResponseTime ch now := by
  simp only [on_message_cloud] at h ⊢
  rw [if_neg (by simp)] at h ⊢
  split at h
  · rename_i hp
    split
    · rfl
    · rename_i hp2
      exact absurd hp hp2
  · cases h

/-- The cloud handler always learns from the message. -/
theorem on_message_cloud_store (s : BotStateC) (ch : Nat) (now : ℤ) (content : String)
    (m : Bool) (g : RngGateC) :
    (on_message_cloud s ch now content m false g).1.store = (learnC s.store content).store := by
  simp only [on_message_cloud]
  rw [if_neg (by simp)]
  split
  · rfl
  · rfl

/-- Inside the cooldown window the cloud handler does not send. -/
theorem on_message_cloud_cooldown_no_send {s : BotStateC} {ch : Nat} {now : ℤ}
    {content : String} {m : Bool} {g : RngGateC} {t : ℤ}
    (hl : lookupTime s.lastResponseTime ch = some t) (hc : now - t < cooldownSecondsC) :
    (on_message_cloud s ch now content m false g).2 = false := by
  simp only [on_message_cloud]
  rw [if_neg (by simp)]
  split
  · rename_i hp
    exfalso
    rw [should_respond_cloud_cooldown s.lastResponseTime s.lastRantTime ch now t content
      m g hl hc] at hp
    cases hp
  · rfl

/-- After a stable send, the channel timestamp is the send time. -/
theorem on_message_stable_sent {s : BotStateS} {ch : Nat} {now : ℤ} {content : String}
    {m : Bool} {g : RngGateS}
    (h : (on_message_stable s ch now content m false g).2 = true) :
    (on_message_stable s ch now content m false g).1.lastResponseTime
      = setTime s.lastResponseTime ch now := by
  simp only [on_message_stable] at h ⊢
  rw [if_neg (by simp)] at h ⊢
  split at h
  · rename_i hp
    split
    · rfl
    · rename_i hp2
      exact absurd hp hp2
  · cases h

/-- Inside the cooldown window the stable handler does not send. -/
theorem on_message_stable_cooldown_no_send {s : BotStateS} {ch : Nat} {now : ℤ}
    {content : String} {m : Bool} {g : RngGateS} {t : ℤ}
    (hl : lookupTime s.lastResponseTime ch = some t) (hc : now - t < cooldownSecondsS) :
    (on_message_stable s ch now content m false g).2 = false := by
  simp only [on_message_stable]
  rw [if_neg (by simp)]
  split
  · rename_i hp
    exfalso
    rw [should_respond_stable_cooldown s.lastResponseTime ch now t content m false g hl hc] at hp
    cases hp
  · rfl

/-- Learning a text whose qualifying tokens are all known never saves and
never changes the word list, however often it is repeated. -/
theorem iterLearn_known (stop : List String) (st : VocabStore) (text : String)
    (h : ∀ t ∈ cleanTokens text, qualifies stop t = true → t ∈ st.words) :
    ∀ n, (iterLearn stop st text n).words = st.words ∧
      (learn_from_message stop (iterLearn stop st text n) text).saved = false := by
  intro n
  induction n with
  | zero =>
    refine ⟨rfl, ?_⟩
    have hk := learnTokens_known stop (cleanTokens text) st 0 h
    show decide (0 < (learnTokens stop st 0 (cleanTokens text)).2) = false
    rw [hk.2]
    rfl
  | succ n ih =>
    have hin : ∀ t ∈ cleanTokens text, qualifies stop t = true →
        t ∈ (iterLearn stop st text n).words := by
      intro t ht hq
      rw [ih.1]
      exact h t ht hq
    have hk := learnTokens_known stop (cleanTokens text) (iterLearn stop st text n) 0 hin
    have hw1 : (iterLearn stop st text (n + 1)).words = st.words := by
      show (learn_from_message stop (iterLearn stop st text n) text).store.words = st.words
      have he : (learn_from_message stop (iterLearn stop st text n) text).store.words
          = (iterLearn stop st text n).words := hk.1
      rw [he, ih.1]
    refine ⟨hw1, ?_⟩
    have hin2 : ∀ t ∈ cleanTokens text, qualifies stop t = true →
        t ∈ (iterLearn stop st text (n + 1)).words := by
      intro t ht hq
      rw [hw1]
      exact h t ht hq
    have hk2 := learnTokens_known stop (cleanTokens text) (iterLearn stop st text (n + 1)) 0 hin2
    show decide (0 < (learnTokens stop (iterLearn stop st text (n + 1)) 0 (cleanTokens text)).2)
      = false
    rw [hk2.2]
    rfl

/-- C1: Vocabulary-closure invariant. For every store reachable from the
starter seed by learn calls and every random outcome (for the cloud variant
also every context), each whitespace-separated token of the generated output
is a member of the vocabulary at call time, and the output is non-empty
whenever the vocabulary is non-empty. -/
theorem gerald_c1_vocabulary_closure :
    (∀ st, ReachS st → ∀ rng : RngS,
      (∀ t ∈ splitWs (generate_response_from_learned_words st rng), t ∈ st.words) ∧
        (st.words ≠ [] → generate_response_from_learned_words st rng ≠ "")) ∧
    (∀ st, ReachC st → ∀ (ctx : String) (rng : RngC),
      (∀ t ∈ splitWs (generate_response st ctx rng), t ∈ st.words) ∧
        (st.words ≠ [] → generate_response st ctx rng ≠ "")) := by
  constructor
  · intro st hr rng
    have hw := reachS_ne_nil st hr
    have hinv := reachS_inv st hr
    have hg : ∀ w ∈ st.words, goodToken w := by
      intro w hmem
      rcases hinv w hmem with ⟨hws, hlen, _⟩
      refine ⟨?_, hws⟩
      intro e
      rw [e] at hlen
      exact absurd hlen (by decide)
    have hspec := generateS_spec st rng hw hg
    exact ⟨hspec.1, fun _ => hspec.2⟩
  · intro st hr ctx rng
    have hw := reachC_ne_nil st hr
    have hinv := reachC_inv st hr
    have hg : ∀ w ∈ st.words, goodToken w := by
      intro w hmem
      rcases hinv w hmem with ⟨hws, hlen⟩
      refine ⟨?_, hws⟩
      intro e
      rw [e] at hlen
      exact absurd hlen (by decide)
    have hspec := generateC_spec st ctx rng hw hg
    exact ⟨hspec.1, fun _ => hspec.2⟩

/-- C1 witness: the closure conclusion instantiated at the stable seed store
with a fixed draw. -/
theorem gerald_c1_witness :
    ReachS seedStable ∧
      (∀ t ∈ splitWs (generate_response_from_learned_words seedStable rngS0),
        t ∈ seedStable.words) :=
  ⟨ReachS.seed, (gerald_c1_vocabulary_closure.1 seedStable ReachS.seed rngS0).1⟩

/-- C2: Validator soundness. The validator rejects the empty candidate and
any candidate with an unknown token; acceptance forces all tokens known and
a token count between two and eight; and the two concrete scenarios behave
as specified. -/
theorem gerald_c2_validator_soundness :
    ∀ (st : VocabStore) (candidate : String),
      (candidate = "" → is_good_response st candidate = false) ∧
      ((∃ w ∈ cleanTokens candidate, w ∉ st.words) → is_good_response st candidate = false) ∧
      (is_good_response st candidate = true →
        (∀ w ∈ cleanTokens candidate, w ∈ st.words) ∧
          2 ≤ (cleanTokens candidate).length ∧ (cleanTokens candidate).length ≤ 8) ∧
      ("mate" ∈ st.words → "tyler" ∈ st.words → "massive" ∈ st.words →
        is_good_response st "mate tyler massive" = true) ∧
      ("huge" ∉ st.words → is_good_response st "mate tyler huge" = false) := by
  intro st candidate
  refine ⟨?_, ?_, ?_, ?_, ?_⟩
  · rintro rfl
    exact is_good_response_empty st
  · exact is_good_response_unknown st candidate
  · exact is_good_response_true st candidate
  · exact is_good_response_scenario st
  · exact is_good_response_huge st

/-- C2 witness: the scenario conclusions at the cleared three-word store. -/
theorem gerald_c2_witness :
    ("mate" ∈ clearedStore.words ∧ "tyler" ∈ clearedStore.words ∧
      "massive" ∈ clearedStore.words ∧ "huge" ∉ clearedStore.words) ∧
      is_good_response clearedStore "mate tyler massive" = true ∧
      is_good_response clearedStore "mate tyler huge" = false :=
  ⟨by decide,
    (gerald_c2_validator_soundness clearedStore "x").2.2.2.1 (by decide) (by decide) (by decide),
    (gerald_c2_validator_soundness clearedStore "x").2.2.2.2 (by decide)⟩

/-- C3 counterexample: right after seeding, mate is a learned word but has
no frequency entry at all, so the claimed at-least-one bound fails. -/
theorem gerald_c3_counterexample :
    LifecycleS seedStable ∧ "mate" ∈ seedStable.words ∧
      lookupFreq seedStable.frequency "mate" = 0 ∧
      "mate" ∉ freqKeys seedStable.frequency :=
  ⟨LifecycleS.seed, by decide, by decide, by decide⟩

/-- C3 amended: across the whole lifecycle the frequency keys are a subset
of the words, and every qualifying token just learned has a count of at
least one; seeding and reset leave the frequency table empty, so seeded
words have no entry until they are heard. -/
theorem gerald_c3_store_invariant_amended :
    (∀ st, LifecycleS st → ∀ p ∈ st.frequency, p.1 ∈ st.words) ∧
    (∀ (st : VocabStore) (text t : String), t ∈ cleanTokens text →
      qualifies stopStable t = true →
      1 ≤ lookupFreq (learnS st text).store.frequency t) := by
  constructor
  · exact fun st h => lifecycleS_keys st h
  · intro st text t ht hq
    exact learnTokens_freq_pos stopStable (cleanTokens text) st 0 t ht hq

/-- C3 witness: the invariant at the reset store and a learned token with a
positive count. -/
theorem gerald_c3_witness :
    (LifecycleS clearedStore ∧ ∀ p ∈ clearedStore.frequency, p.1 ∈ clearedStore.words) ∧
      ("zebra" ∈ cleanTokens "zebra zebra" ∧ qualifies stopStable "zebra" = true ∧
        1 ≤ lookupFreq (learnS seedStable "zebra zebra").store.frequency "zebra") :=
  ⟨⟨LifecycleS.reset seedStable LifecycleS.seed,
      gerald_c3_store_invariant_amended.1 clearedStore
        (LifecycleS.reset seedStable LifecycleS.seed)⟩,
    by decide, by decide,
    gerald_c3_store_invariant_amended.2 seedStable "zebra zebra" "zebra" (by decide) (by decide)⟩

/-- C4 counterexample: relearning the text the, made of one stop word, adds
no words and leaves the frequency totals unchanged, against the claimed
increase on a second pass. -/
theorem gerald_c4_counterexample :
    ((learnS (learnS clearedStore "the").store "the").store.words
        = (learnS clearedStore "the").store.words) ∧
      totalFreq (learnS (learnS clearedStore "the").store "the").store.frequency
        = totalFreq (learnS clearedStore "the").store.frequency :=
  ⟨by decide, by decide⟩

/-- C4 amended: learn never removes words; the word count grows by exactly
the number of distinct new qualifying tokens; a second pass over the same
text adds no words; and the frequency totals strictly increase on the second
pass provided the text has at least one qualifying token. -/
theorem gerald_c4_learn_growth_amended :
    ∀ (stop : List String) (st : VocabStore) (text : String),
      (∀ w ∈ st.words, w ∈ (learn_from_message stop st text).store.words) ∧
      ((learn_from_message stop st text).store.words.length
        = st.words.length + newDistinct stop st text) ∧
      ((learn_from_message stop (learn_from_message stop st text).store text).store.words
        = (learn_from_message stop st text).store.words) ∧
      ((∃ t ∈ cleanTokens text, qualifies stop t = true) →
        totalFreq (learn_from_message stop
            (learn_from_message stop st text).store text).store.frequency
          > totalFreq (learn_from_message stop st text).store.frequency) := by
  intro stop st text
  refine ⟨learn_words_mono stop st text, learn_words_length stop st text, ?_, ?_⟩
  · exact (learnTokens_known stop (cleanTokens text) (learn_from_message stop st text).store 0
      (learn_adds_qualifying stop st text)).1
  · rintro ⟨t, ht, hq⟩
    have h2 : totalFreq (learn_from_message stop
          (learn_from_message stop st text).store text).store.frequency
        = totalFreq (learn_from_message stop st text).store.frequency
          + ((cleanTokens text).filter (qualifies stop)).length :=
      learnTokens_totalFreq stop (cleanTokens text) (learn_from_message stop st text).store 0
    have hpos : 0 < ((cleanTokens text).filter (qualifies stop)).length := by
      apply List.length_pos.mpr
      intro e
      have hm := List.mem_filter.mpr ⟨ht, hq⟩
      rw [e] at hm
      cases hm
    omega

/-- C4 witness: the strict frequency increase on relearning hello world. -/
theorem gerald_c4_witness :
    (∃ t ∈ cleanTokens "hello world", qualifies stopStable t = true) ∧
      totalFreq (learnS (learnS clearedStore "hello world").store "hello world").store.frequency
        > totalFreq (learnS clearedStore "hello world").store.frequency :=
  ⟨⟨"hello", by decide, by decide⟩,
    (gerald_c4_learn_growth_amended stopStable clearedStore "hello world").2.2.2
      ⟨"hello", by decide, by decide⟩⟩

/-- C5 counterexample: the stable variant stop list lacks the word is, so
learning the scenario message also adds is — three new words, not exactly
the claimed two. -/
theorem gerald_c5_counterexample :
    "is" ∈ (learnS scenarioStore "Tyler is absolutely MASSIVE today").store.words ∧
      (learnS scenarioStore "Tyler is absolutely MASSIVE today").newWordsLearned = 3 :=
  ⟨by decide, by decide⟩

/-- C5 amended: in the cloud variant, whose stop list includes is, learning
the scenario message adds exactly absolutely and today, filters is, and
doubles the tyler count; the stable variant additionally learns is. -/
theorem gerald_c5_scenario_amended :
    (learnC scenarioStore "Tyler is absolutely MASSIVE today").store.words
        = ["mate", "tyler", "massive", "yeah", "absolutely", "today"] ∧
      "is" ∉ (learnC scenarioStore "Tyler is absolutely MASSIVE today").store.words ∧
      lookupFreq (learnC scenarioStore "Tyler is absolutely MASSIVE today").store.frequency
        "tyler" = 2 ∧
      (learnC scenarioStore "Tyler is absolutely MASSIVE today").newWordsLearned = 2 :=
  ⟨by decide, by decide, by decide, by decide⟩

/-- C6 counterexample: with an empty vocabulary the cloud generator returns
the fixed string yeah mate, not an ellipsis sentinel. -/
theorem gerald_c6_counterexample :
    generate_response ⟨[], []⟩ "" rngC0 = "yeah mate" ∧ "yeah mate" ≠ "..." :=
  ⟨by decide, by decide⟩

/-- C6 amended: the generators always return a string; with no words the
stable variant returns the ellipsis and the cloud variant returns yeah mate;
when words exist but every stable role pool and the frequency fill are
empty, the stable generator returns one uniformly drawn learned word. -/
theorem gerald_c6_fallback_amended :
    (∀ (f : List (String × Nat)) (rng : RngS),
      generate_response_from_learned_words ⟨[], f⟩ rng = "...") ∧
    (∀ (f : List (String × Nat)) (ctx : String) (rng : RngC),
      generate_response ⟨[], f⟩ ctx rng = "yeah mate") ∧
    (∀ (st : VocabStore) (rng : RngS), st.words ≠ [] →
      inWords st connectorCandidatesS = [] → inWords st tylerCandidates = [] →
      inWords st reactionCandidatesS = [] → fillPoolS st [] = [] →
      generate_response_from_learned_words st rng = pick st.words rng.lIdx ∧
        pick st.words rng.lIdx ∈ st.words) := by
  refine ⟨generateS_empty, generateC_empty, ?_⟩
  intro st rng hw hc ht hr hf
  exact generateS_pools_empty st rng hw hc ht hr hf

/-- C6 witness: the single-word fallback at a one-word store outside every
role pool. -/
theorem gerald_c6_witness :
    (zebraStore.words ≠ [] ∧ inWords zebraStore connectorCandidatesS = [] ∧
      inWords zebraStore tylerCandidates = [] ∧ inWords zebraStore reactionCandidatesS = [] ∧
      fillPoolS zebraStore [] = []) ∧
      generate_response_from_learned_words zebraStore rngS0 = "zebra" := by
  refine ⟨by decide, ?_⟩
  have h := (gerald_c6_fallback_amended.2.2 zebraStore rngS0 (by decide) (by decide) (by decide)
    (by decide) (by decide)).1
  rw [h]
  decide

/-- C7 counterexample: learn_from_message counts two new words for hello
world but returns None rather than that count. -/
theorem gerald_c7_counterexample :
    (learnS clearedStore "hello world").newWordsLearned = 2 ∧
      (learnS clearedStore "hello world").retVal = none ∧
      (learnS clearedStore "hello world").retVal
        ≠ some ((learnS clearedStore "hello world").newWordsLearned) :=
  ⟨by decide, rfl, by decide⟩

/-- C7 amended: learn returns None; the count of distinct newly added words
is computed internally as new_words_learned and gates persistence. -/
theorem gerald_c7_return_amended :
    ∀ (stop : List String) (st : VocabStore) (text : String),
      (learn_from_message stop st text).retVal = none ∧
      (learn_from_message stop st text).newWordsLearned = newDistinct stop st text ∧
      ((learn_from_message stop st text).saved = true ↔ 0 < newDistinct stop st text) :=
  fun stop st text => ⟨learn_retVal stop st text, learn_newWords_eq stop st text,
    learn_saved_iff stop st text⟩

/-- C8 counterexample: under the stable handler, a message arriving one
second after a response is neither replied to nor learned from — quokka
stays unknown, refuting the learned-during-cooldown part of the claim. -/
theorem gerald_c8_counterexample :
    ((on_message_stable ⟨clearedStore, []⟩ 1 0 "hey zebra" false false gateS0).2 = true) ∧
      ((on_message_stable (on_message_stable ⟨clearedStore, []⟩ 1 0 "hey zebra" false false
          gateS0).1 1 1 "hey quokka" false false gateS0).2 = false) ∧
      "quokka" ∈ cleanTokens "hey quokka" ∧ qualifies stopStable "quokka" = true ∧
      "quokka" ∉ (on_message_stable (on_message_stable ⟨clearedStore, []⟩ 1 0 "hey zebra" false
          false gateS0).1 1 1 "hey quokka" false false gateS0).1.store.words :=
  ⟨by decide, by decide, by decide, by decide, by decide⟩

/-- C8 amended: within a cooldown window at most one send occurs per channel
in both variants; the cloud variant still learns the qualifying tokens of a
message arriving during cooldown, while the stable variant learns only from
messages it responds to. -/
theorem gerald_c8_cooldown_amended :
    (∀ (s : BotStateC) (ch : Nat) (t1 t2 : ℤ) (c1 c2 : String) (m1 m2 : Bool)
        (g1 g2 : RngGateC), t2 - t1 < cooldownSecondsC →
      (¬((on_message_cloud s ch t1 c1 m1 false g1).2 = true ∧
        (on_message_cloud (on_message_cloud s ch t1 c1 m1 false g1).1 ch t2 c2 m2 false g2).2
          = true)) ∧
      (∀ tk ∈ cleanTokens c2, qualifies stopCloud tk = true →
        tk ∈ (on_message_cloud (on_message_cloud s ch t1 c1 m1 false g1).1 ch t2 c2 m2 false
          g2).1.store.words)) ∧
    (∀ (s : BotStateS) (ch : Nat) (t1 t2 : ℤ) (c1 c2 : String) (m1 m2 : Bool)
        (g1 g2 : RngGateS), t2 - t1 < cooldownSecondsS →
      ¬((on_message_stable s ch t1 c1 m1 false g1).2 = true ∧
        (on_message_stable (on_message_stable s ch t1 c1 m1 false g1).1 ch t2 c2 m2 false g2).2
          = true)) := by
  constructor
  · intro s ch t1 t2 c1 c2 m1 m2 g1 g2 hlt
    constructor
    · rintro ⟨h1, h2⟩
      have hset := on_message_cloud_sent h1
      have hlk : lookupTime (on_message_cloud s ch t1 c1 m1 false g1).1.lastResponseTime ch
          = some t1 := by
        rw [hset]
        exact lookupTime_setTime _ _ _
      have hns := @on_message_cloud_cooldown_no_send
        (on_message_cloud s ch t1 c1 m1 false g1).1 ch t2 c2 m2 g2 t1 hlk hlt
      rw [hns] at h2
      cases h2
    · intro tk htk hq
      have hst := on_message_cloud_store (on_message_cloud s ch t1 c1 m1 false g1).1 ch t2 c2 m2 g2
      rw [hst]
      exact learn_adds_qualifying stopCloud _ c2 tk htk hq
  · intro s ch t1 t2 c1 c2 m1 m2 g1 g2 hlt
    rintro ⟨h1, h2⟩
    have hset := on_message_stable_sent h1
    have hlk : lookupTime (on_message_stable s ch t1 c1 m1 false g1).1.lastResponseTime ch
        = some t1 := by
      rw [hset]
      exact lookupTime_setTime _ _ _
    have hns := @on_message_stable_cooldown_no_send
      (on_message_stable s ch t1 c1 m1 false g1).1 ch t2 c2 m2 g2 t1 hlk hlt
    rw [hns] at h2
    cases h2

/-- C8 witness: the cloud variant learns quokka from a message one second into
the cooldown window. -/
theorem gerald_c8_witness :
    ((1 : ℤ) - 0 < cooldownSecondsC) ∧
      "quokka" ∈ (on_message_cloud (on_message_cloud ⟨clearedStore, [], 0⟩ 1 0 "hey zebra"
        false false gateC0).1 1 1 "hey quokka" false false gateC0).1.store.words := by
  refine ⟨by decide, ?_⟩
  exact (gerald_c8_cooldown_amended.1 ⟨clearedStore, [], 0⟩ 1 0 1 "hey zebra" "hey quokka"
    false false gateC0 gateC0 (by decide)).2 "quokka" (by decide) (by decide)

/-- C9: the store is persisted exactly when the learn call added at least
one new word; a call whose qualifying tokens are all known updates only
frequencies and never persists, for arbitrarily many repetitions. -/
theorem gerald_c9_persistence_gating :
    (∀ (stop : List String) (st : VocabStore) (text : String),
      (learn_from_message stop st text).saved = true ↔ 0 < newDistinct stop st text) ∧
    (∀ (stop : List String) (st : VocabStore) (text : String),
      (∀ t ∈ cleanTokens text, qualifies stop t = true → t ∈ st.words) →
      ∀ n, (iterLearn stop st text n).words = st.words ∧
        (learn_from_message stop (iterLearn stop st text n) text).saved = false) :=
  ⟨learn_saved_iff, iterLearn_known⟩

/-- C9 witness: five repetitions of an all-known text never save. -/
theorem gerald_c9_witness :
    (∀ t ∈ cleanTokens "mate tyler", qualifies stopStable t = true → t ∈ clearedStore.words) ∧
      (iterLearn stopStable clearedStore "mate tyler" 5).words = clearedStore.words ∧
      (learn_from_message stopStable (iterLearn stopStable clearedStore "mate tyler" 5)
        "mate tyler").saved = false := by
  refine ⟨by decide, ?_, ?_⟩
  · exact (gerald_c9_persistence_gating.2 stopStable clearedStore "mate tyler" (by decide) 5).1
  · exact (gerald_c9_persistence_gating.2 stopStable clearedStore "mate tyler" (by decide) 5).2

/-- C10: from the stable starter seed, no stop word and no single-character
token ever enters the vocabulary under learn calls, so the validator rejects
every candidate containing such a token. -/
theorem gerald_c10_stopwords_unknown :
    ∀ st, ReachS st →
      (∀ w ∈ st.words, stopStable.contains w = false ∧ 1 < strLen w) ∧
      (∀ response : String,
        (∃ tk ∈ cleanTokens response, stopStable.contains tk = true ∨ strLen tk ≤ 1) →
        is_good_response st response = false) := by
  intro st hr
  have hinv := reachS_inv st hr
  constructor
  · intro w hw
    rcases hinv w hw with ⟨_, hlen, hstop⟩
    exact ⟨hstop, hlen⟩
  · rintro response ⟨tk, htk, hbad⟩
    apply is_good_response_unknown
    refine ⟨tk, htk, ?_⟩
    intro hmem
    rcases hinv tk hmem with ⟨_, hlen, hstop⟩
    rcases hbad with hb | hb
    · rw [hstop] at hb
      cases hb
    · omega

/-- C10 witness: the seed store rejects a candidate containing the stop word
the. -/
theorem gerald_c10_witness :
    ReachS seedStable ∧
      (∃ tk ∈ cleanTokens "the mate tyler", stopStable.contains tk = true ∨ strLen tk ≤ 1) ∧
      is_good_response seedStable "the mate tyler" = false :=
  ⟨ReachS.seed, ⟨"the", by decide, by decide⟩,
    (gerald_c10_stopwords_unknown seedStable ReachS.seed).2 "the mate tyler"
      ⟨"the", by decide, by decide⟩⟩

end Gerald
